import Mathlib

/-!
Square matrix multiplication kernels (`main.c`)

A shallow embedding of the matrix-multiplication kernels and of the derived
report metrics of `main.c`, followed by theorems about them.

Modelling conventions.

* `REAL` (`float` in the source) is an arbitrary type `R` carrying `0`, `+`
  and `*`.  Nothing is assumed about these operations unless a theorem asks
  for a `Semiring`, which is what "arithmetic taken exactly" means.
* An index expression `a*N + b` of the source is `int` arithmetic: it is
  `idx32 a N b`, the exact value reduced to the 32-bit two's complement range
  after the product and after the sum.  It is the exact value as long as that
  fits an `int`, and is negative or too small once `N*N` exceeds `2147483647`
  (from `N = 46341`).  `N` is a value of an `int`; a negative `N` runs no loop
  iteration, exactly like `N = 0`, and the loop counters never exceed `N`.
* The input arrays `A` and `B` are lists; a read outside the array
  (undefined behaviour in C) yields `0`.  The kernels only read them.
* The output array `C` is a list of cells together with a log of every index
  the kernel stored to, in program order.  A store whose index is outside
  the array (undefined behaviour in C) is logged and leaves the cells as
  they were.
* A `for (x = 0; x < n; x++)` loop is `forLoop n body`; on exit the loop
  variable holds `n`, which is the value used by code that reads the
  variable after its loop.
* `mm_ijk_checked` and `mm_jik_checked` are the same kernels with every
  access checked against the bounds of its array (`forLoopM`, `Option`).
* A `double` of the report is an exact rational or one of the non-finite
  results of a division by zero; rounding is not modelled.
* `main` is its argument handling (`parse_args`, with `atoi` a parameter) and
  the sequence of calls it makes (`main_events`).
-/

namespace MM

/-! ## Loops and memory -/

/-- The loop `for (x = 0; x < n; x++) s = body x s`, as a state transformer. -/
def forLoop {σ : Type} (n : Nat) (body : Nat → σ → σ) (s : σ) : σ :=
  match n with
  | 0 => s
  | m + 1 => body m (forLoop m body s)

/-- Reduction of an integer to the range of a 32-bit `int`. -/
def wrap32 (x : Int) : Int :=
  (x + 2147483648) % 4294967296 - 2147483648

/-- The `int` expression `a*N + b` of the source, for counters `a`, `b` and the
side `N`: the product and the sum are each reduced to the range of an `int`. -/
def idx32 (a N b : Nat) : Int :=
  wrap32 (wrap32 ((a : Int) * (N : Int)) + (b : Int))

/-- The output array `C`: its cells and the indices stored to so far,
oldest first. -/
structure CArr (R : Type) where
  cells : List R
  stores : List Int
deriving DecidableEq, Repr

/-- An output array holding `cells`, with nothing stored yet. -/
def CArr.init {R : Type} (cells : List R) : CArr R :=
  { cells := cells, stores := [] }

/-- The assignment `C[idx] = v` at a non-negative index. -/
def CArr.store {R : Type} (c : CArr R) (idx : Nat) (v : R) : CArr R :=
  { cells := c.cells.set idx v, stores := c.stores ++ [(idx : Int)] }

/-- The assignment `C[idx] = v` at an `int` index: a negative index is outside
the array. -/
def CArr.storeAt {R : Type} (c : CArr R) (idx : Int) (v : R) : CArr R :=
  { cells := if 0 ≤ idx then c.cells.set idx.toNat v else c.cells
    stores := c.stores ++ [idx] }

/-- The read `A[idx]` at a non-negative index. -/
def rd {R : Type} [Zero R] (A : List R) (idx : Nat) : R :=
  A.getD idx 0

/-- The read `A[idx]` at an `int` index: a negative index is outside the
array. -/
def rdAt {R : Type} [Zero R] (A : List R) (idx : Int) : R :=
  if 0 ≤ idx then rd A idx.toNat else 0

/-! ## The kernels -/

section Kernels

variable {R : Type} [Zero R] [Add R] [Mul R]

/-- Kernel `mm_ijk`, lines 143-153. -/
def mm_ijk (N : Nat) (A B : List R) (C : CArr R) : CArr R :=
  forLoop N (fun i C =>
    forLoop N (fun j C =>
      let sum : R :=
        forLoop N (fun k sum => sum + rdAt A (idx32 i N k) * rdAt B (idx32 k N j)) 0
      C.storeAt (idx32 i N j) sum) C) C

/-- Kernel `mm_jik`, lines 158-169. -/
def mm_jik (N : Nat) (A B : List R) (C : CArr R) : CArr R :=
  forLoop N (fun j C =>
    forLoop N (fun i C =>
      let sum : R :=
        forLoop N (fun k sum => sum + rdAt A (idx32 j N k) * rdAt B (idx32 k N i)) 0
      C.storeAt (idx32 j N i) sum) C) C

/-- Kernel `mm_kij`, lines 173-184.  The store sits after the `j` loop, where
`j` holds `N`. -/
def mm_kij (N : Nat) (A B : List R) (C : CArr R) : CArr R :=
  forLoop N (fun k C =>
    forLoop N (fun i C =>
      let sum : R :=
        forLoop N (fun j sum => sum + rdAt A (idx32 k N j) * rdAt B (idx32 j N i)) 0
      let j := N
      C.storeAt (idx32 j N i) sum) C) C

/-- Kernel `mm_ikj`, lines 188-199.  The store sits after the `j` loop, where
`j` holds `N`. -/
def mm_ikj (N : Nat) (A B : List R) (C : CArr R) : CArr R :=
  forLoop N (fun i C =>
    forLoop N (fun k C =>
      let sum : R :=
        forLoop N (fun j sum => sum + rdAt A (idx32 i N j) * rdAt B (idx32 j N k)) 0
      let j := N
      C.storeAt (idx32 j N i) sum) C) C

/-- Kernel `mm_jki`, lines 203-214.  The store sits after the `i` loop, where
`i` holds `N`. -/
def mm_jki (N : Nat) (A B : List R) (C : CArr R) : CArr R :=
  forLoop N (fun j C =>
    forLoop N (fun k C =>
      let sum : R :=
        forLoop N (fun i sum => sum + rdAt A (idx32 j N i) * rdAt B (idx32 i N k)) 0
      let i := N
      C.storeAt (idx32 j N i) sum) C) C

/-- Kernel `mm_kji`, lines 218-229.  The store sits after the `i` loop, where
`i` holds `N`. -/
def mm_kji (N : Nat) (A B : List R) (C : CArr R) : CArr R :=
  forLoop N (fun k C =>
    forLoop N (fun j C =>
      let sum : R :=
        forLoop N (fun i sum => sum + rdAt A (idx32 k N i) * rdAt B (idx32 i N j)) 0
      let i := N
      C.storeAt (idx32 j N i) sum) C) C

/-- Kernel `mm_ijk_blocking`, lines 234-235: the body is empty. -/
def mm_ijk_blocking (_N : Nat) (_A _B : List R) (C : CArr R) (_bsize : Nat) : CArr R :=
  C

/-- Kernel `mm_cb`, lines 239-240: the body is empty. -/
def mm_cb (_N : Nat) (_A _B : List R) (C : CArr R) (_bsize : Nat) : CArr R :=
  C

/-- The sum of `f 0, ..., f (n-1)` accumulated from `0` in increasing index
order, with no law assumed of `+`. -/
def seqSum (n : Nat) (f : Nat → R) : R :=
  (List.range n).foldl (fun acc k => acc + f k) 0

end Kernels

/-! ## The report row -/

/-- The number of counters in the event set (`NUM_PAPI_EVENTS`). -/
abbrev NUM_PAPI_EVENTS : Nat := 4

/-- A `double` as the report sees it: a finite value, taken exactly, or one of
the non-finite results of a division by zero. -/
inductive Dbl where
  | fin (q : ℚ)
  | posInf
  | negInf
  | nan
deriving DecidableEq

/-- The `double` division `x / y` of finite operands: exact when `y` is not
zero, and otherwise `NaN` for `0 / 0` and an infinity of the sign of `x`. -/
def ddiv (x y : ℚ) : Dbl :=
  if y = 0 then
    if x = 0 then Dbl.nan else if 0 < x then Dbl.posInf else Dbl.negInf
  else Dbl.fin (x / y)

/-- The five numbers printed in one row of the report. -/
structure Row where
  runtime_ms : ℚ
  mflops : Dbl
  l1_rate : Dbl
  l2_rate : Dbl
  l3_rate : Dbl
deriving DecidableEq

/-- The arguments of the `printf` of a kernel row, lines 135-136, from `N`, the
elapsed time in seconds and the four counter values read after the kernel. -/
def report_row (N : Int) (elapsed : ℚ) (PAPI_Values : Fin NUM_PAPI_EVENTS → Int) : Row :=
  { runtime_ms := elapsed * 1000
    mflops := ddiv (((2 * (N : ℚ)) * N) * N) (1000000 * elapsed)
    l1_rate := ddiv (PAPI_Values 1 : ℚ) (PAPI_Values 0 : ℚ)
    l2_rate := ddiv (PAPI_Values 2 : ℚ) (PAPI_Values 1 : ℚ)
    l3_rate := ddiv (PAPI_Values 3 : ℚ) (PAPI_Values 2 : ℚ) }

/-- Whether a `double` is a finite number. -/
def Dbl.isFinite : Dbl → Bool
  | Dbl.fin _ => true
  | _ => false

/-! ## Command line and driver -/

/-- The run configuration: the globals `N` and `bsize`. -/
structure Config where
  N : Int
  bsize : Int
deriving DecidableEq, Repr

/-- The argument handling of `main`, lines 77-83, starting from the initial
values `N = 512` and `bsize = 32` of lines 42-43.  `argv` holds the program name
followed by the arguments, so `argc` is its length; the library function `atoi`
is a parameter. -/
def parse_args (atoi : String → Int) (argv : List String) : Config :=
  let argc := argv.length
  let N : Int := 512
  let bsize : Int := 32
  if argc < 2 then { N := N, bsize := bsize }
  else if argc = 2 then { N := atoi (argv.getD 1 ""), bsize := bsize }
  else if argc = 3 then { N := N, bsize := atoi (argv.getD 2 "") }
  else { N := N, bsize := bsize }

/-- The three matrices of a run. -/
inductive Mat where
  | A
  | B
  | C
deriving DecidableEq, Repr

/-- The eight kernels declared on lines 58-65. -/
inductive Kernel where
  | mm_ijk
  | mm_jik
  | mm_kij
  | mm_ikj
  | mm_jki
  | mm_kji
  | mm_ijk_blocking
  | mm_cb
deriving DecidableEq, Repr

/-- The calls `main` makes, one constructor per callee; `papi_read k` reads the
counters into the array `PAPI_Values_k`, and `printf_row k` prints the row of
kernel `k`. -/
inductive Event where
  | fprintf_usage
  | malloc (m : Mat)
  | srand48
  | init (m : Mat)
  | papi_library_init
  | papi_create_eventset
  | papi_add_event (slot : Nat)
  | papi_start
  | clear_cache (m : Mat)
  | read_timer
  | papi_reset
  | call (k : Kernel)
  | papi_read (k : Kernel)
  | printf_header
  | printf_row (k : Kernel)
  | papi_stop
  | free (m : Mat)
deriving DecidableEq, Repr

/-- The calls made by one run of `main`, lines 77-140, in program order.  The
only branch is the usage message of line 78. -/
def main_events (argc : Nat) : List Event :=
  (if argc < 2 then [Event.fprintf_usage] else []) ++
  [ Event.malloc Mat.A, Event.malloc Mat.B, Event.malloc Mat.C,
    Event.srand48, Event.init Mat.A, Event.init Mat.B,
    Event.papi_library_init, Event.papi_create_eventset,
    Event.papi_add_event 0, Event.papi_add_event 1,
    Event.papi_add_event 2, Event.papi_add_event 3,
    Event.papi_start,
    Event.clear_cache Mat.A, Event.clear_cache Mat.B, Event.clear_cache Mat.C,
    Event.read_timer, Event.papi_reset, Event.call Kernel.mm_ijk,
    Event.papi_read Kernel.mm_ijk, Event.read_timer,
    Event.clear_cache Mat.A, Event.clear_cache Mat.B, Event.clear_cache Mat.C,
    Event.read_timer, Event.papi_reset, Event.call Kernel.mm_jik,
    Event.papi_read Kernel.mm_jik, Event.read_timer,
    Event.printf_header, Event.printf_header, Event.printf_header,
    Event.printf_header, Event.printf_header,
    Event.printf_row Kernel.mm_ijk, Event.printf_row Kernel.mm_jik,
    Event.papi_stop, Event.free Mat.A, Event.free Mat.B, Event.free Mat.C ]

/-- The kernels invoked in a trace, in order. -/
def measured (evs : List Event) : List Kernel :=
  evs.filterMap (fun e => match e with
    | Event.call k => some k
    | _ => none)

/-- The kernels whose report row is printed in a trace, in order. -/
def reported (evs : List Event) : List Kernel :=
  evs.filterMap (fun e => match e with
    | Event.printf_row k => some k
    | _ => none)

/-- The kernels of the Kernel Library, in the order of their declarations. -/
def kernel_library : List Kernel :=
  [ Kernel.mm_ijk, Kernel.mm_jik, Kernel.mm_kij, Kernel.mm_ikj, Kernel.mm_jki,
    Kernel.mm_kji, Kernel.mm_ijk_blocking, Kernel.mm_cb ]

/-- The measurement window the specification asks for around kernel `k`: flush
`A`, `B`, `C`, read the start time, reset the counters, invoke `k`, read the
counters, read the end time. -/
def window (k : Kernel) : List Event :=
  [ Event.clear_cache Mat.A, Event.clear_cache Mat.B, Event.clear_cache Mat.C,
    Event.read_timer, Event.papi_reset, Event.call k, Event.papi_read k,
    Event.read_timer ]

/-- Whether an event is the invocation of a kernel. -/
def Event.isCall : Event → Bool
  | Event.call _ => true
  | _ => false

/-- Whether an event (re-)initialises a matrix. -/
def Event.isInit : Event → Bool
  | Event.init _ => true
  | _ => false

/-! ## The kernels with checked indexing -/

/-- A `for` loop whose body may fail; a failure ends the whole loop. -/
def forLoopM {σ : Type} (n : Nat) (body : Nat → σ → Option σ) (s : σ) : Option σ :=
  match n with
  | 0 => some s
  | m + 1 => (forLoopM m body s).bind (body m)

/-- The read `A[idx]` at an `int` index, defined only when `idx` is inside the
array. -/
def rdChecked {R : Type} (A : List R) (idx : Int) : Option R :=
  if 0 ≤ idx then A[idx.toNat]? else none

/-- The assignment `C[idx] = v` at an `int` index, defined only when `idx` is
inside the array. -/
def CArr.storeChecked {R : Type} (c : CArr R) (idx : Int) (v : R) : Option (CArr R) :=
  if 0 ≤ idx ∧ idx.toNat < c.cells.length then some (c.storeAt idx v) else none

section Checked

variable {R : Type} [Zero R] [Add R] [Mul R]

/-- Kernel `mm_ijk`, lines 143-153, with every read of `A` and `B` and every
store to `C` checked against the bounds of the array. -/
def mm_ijk_checked (N : Nat) (A B : List R) (C : CArr R) : Option (CArr R) :=
  forLoopM N (fun i C =>
    forLoopM N (fun j C =>
      (forLoopM N (fun k sum =>
          (rdChecked A (idx32 i N k)).bind (fun a =>
            (rdChecked B (idx32 k N j)).bind (fun b => some (sum + a * b))))
        (0 : R)).bind
        (fun sum => C.storeChecked (idx32 i N j) sum)) C) C

/-- Kernel `mm_jik`, lines 158-169, with every read of `A` and `B` and every
store to `C` checked against the bounds of the array. -/
def mm_jik_checked (N : Nat) (A B : List R) (C : CArr R) : Option (CArr R) :=
  forLoopM N (fun j C =>
    forLoopM N (fun i C =>
      (forLoopM N (fun k sum =>
          (rdChecked A (idx32 j N k)).bind (fun a =>
            (rdChecked B (idx32 k N i)).bind (fun b => some (sum + a * b))))
        (0 : R)).bind
        (fun sum => C.storeChecked (idx32 j N i) sum)) C) C

end Checked

end MM


/-! ## Loop and store lemmas -/

namespace MM

section Lemmas

variable {R : Type}

theorem forLoop_zero {σ : Type} (body : Nat → σ → σ) (s : σ) :
    forLoop 0 body s = s := rfl

theorem forLoop_succ {σ : Type} (n : Nat) (body : Nat → σ → σ) (s : σ) :
    forLoop (n + 1) body s = body n (forLoop n body s) := rfl

theorem store_cells (c : CArr R) (idx : Nat) (v : R) :
    (c.store idx v).cells = c.cells.set idx v := rfl

theorem store_stores (c : CArr R) (idx : Nat) (v : R) :
    (c.store idx v).stores = c.stores ++ [(idx : Int)] := rfl

/-- A loop of stores keeps the length of the array. -/
theorem forLoop_store_length (idx : Nat → Nat) (val : Nat → R) (n : Nat) (c : CArr R) :
    (forLoop n (fun j st => CArr.store st (idx j) (val j)) c).cells.length
      = c.cells.length := by
  induction n with
  | zero => rfl
  | succ n ih => rw [forLoop_succ, store_cells, List.length_set, ih]

/-- Cells after one row of stores `C[base + j] = val j`, `j < n`. -/
theorem forLoop_store_row (base : Nat) (val : Nat → R) (n : Nat) (c : CArr R) (p : Nat) :
    (forLoop n (fun j st => CArr.store st (base + j) (val j)) c).cells[p]? =
      if base ≤ p ∧ p < base + n ∧ p < c.cells.length then some (val (p - base))
      else c.cells[p]? := by
  induction n with
  | zero =>
    have h : ¬ (base ≤ p ∧ p < base + 0 ∧ p < c.cells.length) := by omega
    rw [forLoop_zero, if_neg h]
  | succ n ih =>
    rw [forLoop_succ, store_cells, List.getElem?_set, ih, forLoop_store_length]
    by_cases hp : base + n = p
    · subst hp
      by_cases hl : base + n < c.cells.length
      · simp [hl]
      · have h1 : ¬ (base ≤ base + n ∧ base + n < base + n ∧ base + n < c.cells.length) := by
          omega
        have h2 : ¬ (base ≤ base + n ∧ base + n < base + (n + 1)
            ∧ base + n < c.cells.length) := by omega
        rw [if_pos rfl, if_neg hl, if_neg h2]
        exact (List.getElem?_eq_none (by omega)).symm
    · rw [if_neg hp]
      by_cases h : base ≤ p ∧ p < base + n ∧ p < c.cells.length
      · rw [if_pos h, if_pos (by omega)]
      · rw [if_neg h, if_neg (by omega)]

/-- A nest of two store loops keeps the length of the array. -/
theorem forLoop_store_grid_length (N : Nat) (val : Nat → Nat → R) (n : Nat) (c : CArr R) :
    (forLoop n (fun i st =>
        forLoop N (fun j st => CArr.store st (i * N + j) (val i j)) st) c).cells.length
      = c.cells.length := by
  induction n with
  | zero => rfl
  | succ n ih => rw [forLoop_succ, forLoop_store_length, ih]

/-- Cells after `n` full rows of stores `C[i*N + j] = val i j`, `i < n`, `j < N`. -/
theorem forLoop_store_grid (N : Nat) (val : Nat → Nat → R) (n : Nat) (c : CArr R) (p : Nat) :
    (forLoop n (fun i st =>
        forLoop N (fun j st => CArr.store st (i * N + j) (val i j)) st) c).cells[p]? =
      if p < n * N ∧ p < c.cells.length then some (val (p / N) (p % N))
      else c.cells[p]? := by
  induction n with
  | zero =>
    have h : ¬ (p < 0 * N ∧ p < c.cells.length) := by omega
    rw [forLoop_zero, if_neg h]
  | succ n ih =>
    rw [forLoop_succ, forLoop_store_row, ih, forLoop_store_grid_length]
    have hs : (n + 1) * N = n * N + N := Nat.succ_mul n N
    by_cases h : n * N ≤ p ∧ p < n * N + N ∧ p < c.cells.length
    · have hd : p / N = n := Nat.div_eq_of_lt_le h.1 (by omega)
      have hm : p % N = p - n * N := by
        have := Nat.div_add_mod p N
        rw [hd, Nat.mul_comm] at this
        omega
      rw [if_pos h, if_pos (by omega), hd, hm]
    · rw [if_neg h]
      by_cases h2 : p < n * N ∧ p < c.cells.length
      · rw [if_pos h2, if_pos (by omega)]
      · rw [if_neg h2, if_neg (by omega)]

/-- Store log after one row of stores `C[base + j] = val j`, `j < n`. -/
theorem forLoop_store_row_stores (base : Nat) (val : Nat → R) (n : Nat) (c : CArr R) :
    (forLoop n (fun j st => CArr.store st (base + j) (val j)) c).stores =
      c.stores ++ (List.range n).map (fun j => ((base + j : Nat) : Int)) := by
  induction n with
  | zero => simp [forLoop_zero]
  | succ n ih =>
    rw [forLoop_succ, store_stores, ih, List.range_succ, List.map_append, List.append_assoc]
    rfl

/-- Store log after `n` full rows of stores: the indices `0, ..., n*N - 1`, each
once and in increasing order. -/
theorem forLoop_store_grid_stores (N : Nat) (val : Nat → Nat → R) (n : Nat) (c : CArr R) :
    (forLoop n (fun i st =>
        forLoop N (fun j st => CArr.store st (i * N + j) (val i j)) st) c).stores =
      c.stores ++ (List.range (n * N)).map (fun t : Nat => (t : Int)) := by
  induction n with
  | zero => simp [forLoop_zero]
  | succ n ih =>
    rw [forLoop_succ, forLoop_store_row_stores, ih, Nat.succ_mul, List.range_add,
      List.map_append, List.map_map, List.append_assoc]
    rfl

/-- The accumulation loop `sum = 0; for k < n: sum += f k` is the left-to-right
sum from `0`. -/
theorem forLoop_acc_eq_seqSum [Zero R] [Add R] (n : Nat) (f : Nat → R) :
    forLoop n (fun k sum => sum + f k) 0 = seqSum n f := by
  induction n with
  | zero => rfl
  | succ n ih =>
    rw [forLoop_succ, ih]
    unfold seqSum
    rw [List.range_succ, List.foldl_append]
    rfl

/-- With exact arithmetic the left-to-right sum is the usual finite sum. -/
theorem seqSum_eq_sum [AddCommMonoid R] (n : Nat) (f : Nat → R) :
    seqSum n f = ∑ k in Finset.range n, f k := by
  induction n with
  | zero => rfl
  | succ n ih =>
    rw [Finset.sum_range_succ, ← ih]
    unfold seqSum
    rw [List.range_succ, List.foldl_append]
    rfl

/-- Position `r*N + c` of a row-major `N x N` array decodes to row `r`, column `c`. -/
theorem rowMajor_decode (N r c : Nat) (hc : c < N) :
    (r * N + c) / N = r ∧ (r * N + c) % N = c := by
  have hN : 0 < N := by omega
  constructor
  · rw [Nat.mul_comm, Nat.mul_add_div hN, Nat.div_eq_of_lt hc, Nat.add_zero]
  · rw [Nat.mul_comm, Nat.mul_add_mod, Nat.mod_eq_of_lt hc]

/-- Position `r*N + c` lies inside an `N x N` array. -/
theorem rowMajor_lt (N r c : Nat) (hr : r < N) (hc : c < N) : r * N + c < N * N := by
  have h : (r + 1) * N ≤ N * N := Nat.mul_le_mul_right N hr
  rw [Nat.succ_mul] at h
  omega

/-- A property kept by every iteration is kept by the loop. -/
theorem forLoop_invariant {σ : Type} (P : σ → Prop) (body : Nat → σ → σ)
    (h : ∀ m t, P t → P (body m t)) (n : Nat) (s : σ) (hs : P s) :
    P (forLoop n body s) := by
  induction n with
  | zero => exact hs
  | succ n ih => exact h n _ ih

/-! ### `int` indices -/

/-- The reduction leaves a value of the range of an `int` alone. -/
theorem wrap32_of_le (x : Int) (h0 : 0 ≤ x) (h1 : x ≤ 2147483647) : wrap32 x = x := by
  unfold wrap32
  omega

/-- A reduced value is at most `INT_MAX`. -/
theorem wrap32_le (x : Int) : wrap32 x ≤ 2147483647 := by
  unfold wrap32
  omega

/-- An `int` index is at most `INT_MAX`. -/
theorem idx32_le (a N b : Nat) : idx32 a N b ≤ 2147483647 :=
  wrap32_le _

/-- The `int` expression `a*N + b` is the exact value when that fits an `int`. -/
theorem idx32_eq (a N b : Nat) (h : a * N + b ≤ 2147483647) :
    idx32 a N b = ((a * N + b : Nat) : Int) := by
  have h1 : ((a : Int) * (N : Int)) = ((a * N : Nat) : Int) := by push_cast; rfl
  have h2 : wrap32 ((a * N : Nat) : Int) = ((a * N : Nat) : Int) :=
    wrap32_of_le _ (by omega) (by omega)
  unfold idx32
  rw [h1, h2, wrap32_of_le _ (by omega) (by omega)]
  push_cast
  rfl

/-- A read at a non-negative `int` index. -/
theorem rdAt_natCast [Zero R] (A : List R) (n : Nat) : rdAt A (n : Int) = rd A n := by
  unfold rdAt
  rw [if_pos (Int.ofNat_nonneg n), Int.toNat_ofNat]

/-- A store at a non-negative `int` index. -/
theorem storeAt_natCast (c : CArr R) (n : Nat) (v : R) :
    c.storeAt (n : Int) v = c.store n v := by
  unfold CArr.storeAt CArr.store
  rw [if_pos (Int.ofNat_nonneg n), Int.toNat_ofNat]

/-- Loops whose bodies agree on the iterations they run are equal. -/
theorem forLoop_congr {σ : Type} (n : Nat) (body body2 : Nat → σ → σ)
    (h : ∀ m, m < n → ∀ s, body m s = body2 m s) (s : σ) :
    forLoop n body s = forLoop n body2 s := by
  induction n with
  | zero => rfl
  | succ n ih =>
    rw [forLoop_succ, forLoop_succ, ih (fun m hm => h m (Nat.lt_succ_of_lt hm)),
      h n (Nat.lt_succ_self n)]

/-- A kernel nest whose `int` indices all fit an `int` is the nest with exact
indices: `sr a b * N + sc a b` for the store of iteration `(a, b)`, and
`ar * N + ac`, `br * N + bc` for the reads of `A` and `B` in iteration
`(a, b, c)`. -/
theorem wrapped_nest_eq [Zero R] [Add R] [Mul R] (N : Nat) (A B : List R) (C : CArr R)
    (sr sc : Nat → Nat → Nat) (ar ac br bc : Nat → Nat → Nat → Nat)
    (hs : ∀ a b, a < N → b < N → sr a b * N + sc a b ≤ 2147483647)
    (ha : ∀ a b c, a < N → b < N → c < N → ar a b c * N + ac a b c ≤ 2147483647)
    (hb : ∀ a b c, a < N → b < N → c < N → br a b c * N + bc a b c ≤ 2147483647) :
    forLoop N (fun a st => forLoop N (fun b st =>
        CArr.storeAt st (idx32 (sr a b) N (sc a b))
          (forLoop N (fun c sum =>
            sum + rdAt A (idx32 (ar a b c) N (ac a b c))
              * rdAt B (idx32 (br a b c) N (bc a b c))) 0)) st) C
      = forLoop N (fun a st => forLoop N (fun b st =>
        CArr.store st (sr a b * N + sc a b)
          (seqSum N (fun c =>
            rd A (ar a b c * N + ac a b c) * rd B (br a b c * N + bc a b c)))) st) C := by
  apply forLoop_congr
  intro a ha1 st
  apply forLoop_congr
  intro b hb1 st
  have hsum : forLoop N (fun c sum =>
        sum + rdAt A (idx32 (ar a b c) N (ac a b c))
          * rdAt B (idx32 (br a b c) N (bc a b c))) (0 : R)
      = forLoop N (fun c sum =>
        sum + rd A (ar a b c * N + ac a b c) * rd B (br a b c * N + bc a b c)) 0 := by
    apply forLoop_congr
    intro c hc s
    show s + rdAt A (idx32 (ar a b c) N (ac a b c)) * rdAt B (idx32 (br a b c) N (bc a b c))
      = s + rd A (ar a b c * N + ac a b c) * rd B (br a b c * N + bc a b c)
    rw [idx32_eq _ _ _ (ha a b c ha1 hb1 hc), idx32_eq _ _ _ (hb a b c ha1 hb1 hc),
      rdAt_natCast, rdAt_natCast]
  show CArr.storeAt st (idx32 (sr a b) N (sc a b)) _ = CArr.store st (sr a b * N + sc a b) _
  rw [hsum, idx32_eq _ _ _ (hs a b ha1 hb1), storeAt_natCast,
    forLoop_acc_eq_seqSum N (fun c =>
      rd A (ar a b c * N + ac a b c) * rd B (br a b c * N + bc a b c))]

/-- The kernel `mm_ijk` with exact indices, when `N*N` fits an `int`. -/
theorem mm_ijk_unwrapped [Zero R] [Add R] [Mul R] (N : Nat) (A B : List R) (C : CArr R)
    (hN : N * N ≤ 2147483647) :
    mm_ijk N A B C = forLoop N (fun i st => forLoop N (fun j st =>
      CArr.store st (i * N + j)
        (seqSum N (fun k => rd A (i * N + k) * rd B (k * N + j)))) st) C := by
  unfold mm_ijk
  exact wrapped_nest_eq N A B C (fun i _ => i) (fun _ j => j)
    (fun i _ _ => i) (fun _ _ k => k) (fun _ _ k => k) (fun _ j _ => j)
    (fun a b h1 h2 => by beta_reduce; have := rowMajor_lt N a b h1 h2; omega)
    (fun a _ c h1 _ h3 => by beta_reduce; have := rowMajor_lt N a c h1 h3; omega)
    (fun _ b c _ h2 h3 => by beta_reduce; have := rowMajor_lt N c b h3 h2; omega)

/-- The kernel `mm_jik` with exact indices, when `N*N` fits an `int`. -/
theorem mm_jik_unwrapped [Zero R] [Add R] [Mul R] (N : Nat) (A B : List R) (C : CArr R)
    (hN : N * N ≤ 2147483647) :
    mm_jik N A B C = forLoop N (fun j st => forLoop N (fun i st =>
      CArr.store st (j * N + i)
        (seqSum N (fun k => rd A (j * N + k) * rd B (k * N + i)))) st) C := by
  unfold mm_jik
  exact wrapped_nest_eq N A B C (fun j _ => j) (fun _ i => i)
    (fun j _ _ => j) (fun _ _ k => k) (fun _ _ k => k) (fun _ i _ => i)
    (fun a b h1 h2 => by beta_reduce; have := rowMajor_lt N a b h1 h2; omega)
    (fun a _ c h1 _ h3 => by beta_reduce; have := rowMajor_lt N a c h1 h3; omega)
    (fun _ b c _ h2 h3 => by beta_reduce; have := rowMajor_lt N c b h3 h2; omega)

/-- The kernel `mm_kij` with exact indices, when `N*N + N` fits an `int`. -/
theorem mm_kij_unwrapped [Zero R] [Add R] [Mul R] (N : Nat) (A B : List R) (C : CArr R)
    (hN : N * N + N ≤ 2147483647) :
    mm_kij N A B C = forLoop N (fun k st => forLoop N (fun i st =>
      CArr.store st (N * N + i)
        (seqSum N (fun j => rd A (k * N + j) * rd B (j * N + i)))) st) C := by
  unfold mm_kij
  exact wrapped_nest_eq N A B C (fun _ _ => N) (fun _ i => i)
    (fun k _ _ => k) (fun _ _ j => j) (fun _ _ j => j) (fun _ i _ => i)
    (fun _ b _ h2 => by beta_reduce; omega)
    (fun a _ c h1 _ h3 => by beta_reduce; have := rowMajor_lt N a c h1 h3; omega)
    (fun _ b c _ h2 h3 => by beta_reduce; have := rowMajor_lt N c b h3 h2; omega)

/-- The kernel `mm_ikj` with exact indices, when `N*N + N` fits an `int`. -/
theorem mm_ikj_unwrapped [Zero R] [Add R] [Mul R] (N : Nat) (A B : List R) (C : CArr R)
    (hN : N * N + N ≤ 2147483647) :
    mm_ikj N A B C = forLoop N (fun i st => forLoop N (fun k st =>
      CArr.store st (N * N + i)
        (seqSum N (fun j => rd A (i * N + j) * rd B (j * N + k)))) st) C := by
  unfold mm_ikj
  exact wrapped_nest_eq N A B C (fun _ _ => N) (fun i _ => i)
    (fun i _ _ => i) (fun _ _ j => j) (fun _ _ j => j) (fun _ k _ => k)
    (fun a _ h1 _ => by beta_reduce; omega)
    (fun a _ c h1 _ h3 => by beta_reduce; have := rowMajor_lt N a c h1 h3; omega)
    (fun _ b c _ h2 h3 => by beta_reduce; have := rowMajor_lt N c b h3 h2; omega)

/-- An index `j*N + N` with `j < N` is at most `N*N`. -/
theorem stride_le (N j : Nat) (hj : j < N) : j * N + N ≤ N * N := by
  have h : (j + 1) * N ≤ N * N := Nat.mul_le_mul_right N hj
  rw [Nat.succ_mul] at h
  exact h

/-- The kernel `mm_jki` with exact indices, when `N*N` fits an `int`. -/
theorem mm_jki_unwrapped [Zero R] [Add R] [Mul R] (N : Nat) (A B : List R) (C : CArr R)
    (hN : N * N ≤ 2147483647) :
    mm_jki N A B C = forLoop N (fun j st => forLoop N (fun k st =>
      CArr.store st (j * N + N)
        (seqSum N (fun i => rd A (j * N + i) * rd B (i * N + k)))) st) C := by
  unfold mm_jki
  exact wrapped_nest_eq N A B C (fun j _ => j) (fun _ _ => N)
    (fun j _ _ => j) (fun _ _ i => i) (fun _ _ i => i) (fun _ k _ => k)
    (fun a _ h1 _ => by beta_reduce; have := stride_le N a h1; omega)
    (fun a _ c h1 _ h3 => by beta_reduce; have := rowMajor_lt N a c h1 h3; omega)
    (fun _ b c _ h2 h3 => by beta_reduce; have := rowMajor_lt N c b h3 h2; omega)

/-- The kernel `mm_kji` with exact indices, when `N*N` fits an `int`. -/
theorem mm_kji_unwrapped [Zero R] [Add R] [Mul R] (N : Nat) (A B : List R) (C : CArr R)
    (hN : N * N ≤ 2147483647) :
    mm_kji N A B C = forLoop N (fun k st => forLoop N (fun j st =>
      CArr.store st (j * N + N)
        (seqSum N (fun i => rd A (k * N + i) * rd B (i * N + j)))) st) C := by
  unfold mm_kji
  exact wrapped_nest_eq N A B C (fun _ j => j) (fun _ _ => N)
    (fun k _ _ => k) (fun _ _ i => i) (fun _ _ i => i) (fun _ j _ => j)
    (fun _ b _ h2 => by beta_reduce; have := stride_le N b h2; omega)
    (fun a _ c h1 _ h3 => by beta_reduce; have := rowMajor_lt N a c h1 h3; omega)
    (fun _ b c _ h2 h3 => by beta_reduce; have := rowMajor_lt N c b h3 h2; omega)

/-! ### Indices that left the range of an `int` -/

/-- A store at an `int` index keeps the length of the array. -/
theorem storeAt_length (c : CArr R) (idx : Int) (v : R) :
    (c.storeAt idx v).cells.length = c.cells.length := by
  unfold CArr.storeAt
  by_cases h : 0 ≤ idx
  · simp only [if_pos h, List.length_set]
  · simp only [if_neg h]

/-- A store at an `int` index leaves every other cell alone. -/
theorem storeAt_miss (c : CArr R) (idx : Int) (v : R) (p : Nat) (h : idx ≠ (p : Int)) :
    (c.storeAt idx v).cells[p]? = c.cells[p]? := by
  unfold CArr.storeAt
  by_cases h0 : 0 ≤ idx
  · have hne : idx.toNat ≠ p := by omega
    simp only [if_pos h0]
    exact List.getElem?_set_ne hne
  · simp only [if_neg h0]

/-- A store at index `0` of a non-empty array sets cell `0`. -/
theorem storeAt_zero (c : CArr R) (v : R) (h : 0 < c.cells.length) :
    (c.storeAt 0 v).cells[0]? = some v := by
  unfold CArr.storeAt
  simp only [le_refl, if_true, Int.toNat_zero]
  rw [List.getElem?_set, if_pos rfl, if_pos h]

/-- A cell that no iteration of a nest of stores targets keeps its value. -/
theorem storeAt_nest_stale (N : Nat) (idx : Nat → Nat → Int) (val : Nat → Nat → R)
    (n : Nat) (c : CArr R) (p : Nat) (hp : ∀ a b, idx a b ≠ (p : Int)) :
    (forLoop n (fun a st =>
        forLoop N (fun b st => CArr.storeAt st (idx a b) (val a b)) st) c).cells[p]?
      = c.cells[p]? := by
  apply forLoop_invariant (fun st : CArr R => st.cells[p]? = c.cells[p]?)
  · intro a t ht
    apply forLoop_invariant (fun st : CArr R => st.cells[p]? = c.cells[p]?)
    · intro b u hu
      show (CArr.storeAt u (idx a b) (val a b)).cells[p]? = c.cells[p]?
      rw [storeAt_miss u _ _ p (hp a b), hu]
    · exact ht
  · rfl

/-- Store log of one loop of stores at `int` indices. -/
theorem forLoop_storeAt_log (idx : Nat → Int) (val : Nat → R) (n : Nat) (c : CArr R) :
    (forLoop n (fun b st => CArr.storeAt st (idx b) (val b)) c).stores =
      c.stores ++ (List.range n).map idx := by
  induction n with
  | zero => simp [forLoop_zero]
  | succ n ih =>
    rw [forLoop_succ, List.range_succ, List.map_append, ← List.append_assoc, ← ih]
    rfl

/-- Store log of a nest of stores at `int` indices: iteration number `t` of the
nest is `a = t / N`, `b = t % N`. -/
theorem forLoop_storeAt_nest_log (N : Nat) (idx : Nat → Nat → Int) (val : Nat → Nat → R)
    (n : Nat) (c : CArr R) :
    (forLoop n (fun a st =>
        forLoop N (fun b st => CArr.storeAt st (idx a b) (val a b)) st) c).stores =
      c.stores ++ (List.range (n * N)).map (fun t => idx (t / N) (t % N)) := by
  induction n with
  | zero => simp [forLoop_zero]
  | succ n ih =>
    rw [forLoop_succ, forLoop_storeAt_log, ih, Nat.succ_mul, List.range_add, List.map_append,
      List.append_assoc, List.map_map]
    congr 2
    apply List.map_congr_left
    intro b hb
    have hb : b < N := List.mem_range.mp hb
    have hd := rowMajor_decode N n b hb
    show idx n b = idx ((n * N + b) / N) ((n * N + b) % N)
    rw [hd.1, hd.2]

/-- Every read of an array of zeros yields zero. -/
theorem rd_replicate_zero [Zero R] (M n : Nat) : rd (List.replicate M (0 : R)) n = 0 := by
  unfold rd
  rw [List.getD_eq_getElem?_getD, List.getElem?_replicate]
  by_cases h : n < M
  · rw [if_pos h]; rfl
  · rw [if_neg h]; rfl

/-- Every read of an array of zeros at an `int` index yields zero. -/
theorem rdAt_replicate_zero [Zero R] (M : Nat) (idx : Int) :
    rdAt (List.replicate M (0 : R)) idx = 0 := by
  unfold rdAt
  by_cases h : 0 ≤ idx
  · rw [if_pos h, rd_replicate_zero]
  · rw [if_neg h]

/-- A property that the first iteration establishes and the later ones keep
holds after a loop of at least one iteration. -/
theorem forLoop_establish {σ : Type} (L Q : σ → Prop) (body : Nat → σ → σ)
    (h0 : ∀ s, L s → Q (body 0 s)) (hp : ∀ m s, Q s → Q (body m s))
    (n : Nat) (hn : 0 < n) (s : σ) (hs : L s) : Q (forLoop n body s) := by
  induction n with
  | zero => exact absurd hn (Nat.lt_irrefl 0)
  | succ n ih =>
    rw [forLoop_succ]
    rcases Nat.eq_zero_or_pos n with hz | hpos
    · subst hz
      exact h0 s hs
    · exact hp n _ (ih hpos)

end Lemmas

end MM

/-! ## The kernels against the standard product -/

namespace MM

section Product

variable {R : Type}

/-- C1, amended. For every `N >= 1` whose square fits an `int`
(`N*N <= 2147483647`) and row-major `A`, `B`, `C` of length `N*N`, after
`mm_ijk N A B C` every cell `C[i*N+j]` with `i, j < N` holds the sum over
`k = 0..N-1` of `A[i*N+k] * B[k*N+j]`, accumulated from `0` in increasing `k`,
whatever `C` held before.  No law is assumed of `+` and `*`; `N >= 1` follows
from `i < N`, and the reads of `A` and `B` are total, so their length is free. -/
theorem mm_ijk_computes_product [Zero R] [Add R] [Mul R] (N : Nat) (A B : List R)
    (C : CArr R) (hN : N * N ≤ 2147483647) (hC : C.cells.length = N * N) (i j : Nat)
    (hi : i < N) (hj : j < N) :
    (mm_ijk N A B C).cells[i * N + j]? =
      some (seqSum N (fun k => rd A (i * N + k) * rd B (k * N + j))) := by
  have hp : i * N + j < N * N := rowMajor_lt N i j hi hj
  have hd := rowMajor_decode N i j hj
  rw [mm_ijk_unwrapped N A B C hN, forLoop_store_grid N
    (fun i j => seqSum N (fun k => rd A (i * N + k) * rd B (k * N + j))) N C (i * N + j),
    if_pos ⟨hp, by omega⟩, hd.1, hd.2]

/-- Instance of C1 at `N = 2`, cell `(1, 0)`, over the integers. -/
theorem mm_ijk_computes_product_witness :
    2 * 2 ≤ 2147483647 ∧
    (CArr.init [7, 7, 7, 7] : CArr ℤ).cells.length = 2 * 2 ∧ 1 < 2 ∧ 0 < 2 ∧
    (mm_ijk 2 [1, 2, 3, 4] [5, 6, 7, 8] (CArr.init [7, 7, 7, 7]) : CArr ℤ).cells[1 * 2 + 0]? =
      some (seqSum 2 (fun k => rd [1, 2, 3, 4] (1 * 2 + k) * rd [5, 6, 7, 8] (k * 2 + 0))) :=
  ⟨by decide, rfl, by decide, by decide,
    mm_ijk_computes_product 2 [1, 2, 3, 4] [5, 6, 7, 8] (CArr.init [7, 7, 7, 7]) (by decide)
      rfl 1 0 (by decide) (by decide)⟩

/-- C1 as stated fails at `N = 46341`, `A` and `B` all `0`, `C` all `1`: for
`i = 46340`, `j = 41708` the `int` index `i*N+j` is `2^31` reduced to `-2^31`,
no store reaches cell `i*N+j`, and it keeps its `1` where the sum is `0`. -/
theorem mm_ijk_overflow_counterexample :
    (CArr.init (List.replicate (46341 * 46341) 1) : CArr ℤ).cells.length = 46341 * 46341 ∧
    46340 < 46341 ∧ 41708 < 46341 ∧
    (mm_ijk 46341 (List.replicate (46341 * 46341) 0) (List.replicate (46341 * 46341) 0)
        (CArr.init (List.replicate (46341 * 46341) 1)) : CArr ℤ).cells[46340 * 46341 + 41708]?
      = some 1 ∧
    seqSum 46341 (fun k => rd (List.replicate (46341 * 46341) (0 : ℤ)) (46340 * 46341 + k)
      * rd (List.replicate (46341 * 46341) (0 : ℤ)) (k * 46341 + 41708)) = 0 ∧
    idx32 46340 46341 41708 = -2147483648 := by
  refine ⟨List.length_replicate _ _, by decide, by decide, ?_, ?_, by decide⟩
  · unfold mm_ijk
    rw [storeAt_nest_stale 46341 (fun i j => idx32 i 46341 j) _ 46341 _ (46340 * 46341 + 41708)
      (fun a b => by beta_reduce; have := idx32_le a 46341 b; omega)]
    show (List.replicate (46341 * 46341) (1 : ℤ))[46340 * 46341 + 41708]? = some 1
    rw [List.getElem?_replicate, if_pos (by decide)]
  · rw [seqSum_eq_sum]
    exact Finset.sum_eq_zero (fun k _ => by rw [rd_replicate_zero, zero_mul])

/-- C2, amended. For every `N >= 1` whose square fits an `int`
(`N*N <= 2147483647`), every `A`, `B` and every `C` of length `N*N`, after
`mm_jik N A B C` every cell `C[r*N+c]` with `r, c < N` equals the sum over
`k < N` of `A[r*N+k] * B[k*N+c]`, arithmetic taken exactly (any semiring). -/
theorem mm_jik_matches_reference [Semiring R] (N : Nat) (A B : List R)
    (C : CArr R) (hN : N * N ≤ 2147483647) (hC : C.cells.length = N * N) (r c : Nat)
    (hr : r < N) (hc : c < N) :
    (mm_jik N A B C).cells[r * N + c]? =
      some (∑ k in Finset.range N, rd A (r * N + k) * rd B (k * N + c)) := by
  have hp : r * N + c < N * N := rowMajor_lt N r c hr hc
  have hd := rowMajor_decode N r c hc
  rw [mm_jik_unwrapped N A B C hN]
  simp only [seqSum_eq_sum]
  rw [forLoop_store_grid N
    (fun j i => ∑ k in Finset.range N, rd A (j * N + k) * rd B (k * N + i)) N C (r * N + c),
    if_pos ⟨hp, by omega⟩, hd.1, hd.2]

/-- Instance of C2 at `N = 2`, cell `(0, 1)`, over the integers. -/
theorem mm_jik_matches_reference_witness :
    2 * 2 ≤ 2147483647 ∧
    (CArr.init [7, 7, 7, 7] : CArr ℤ).cells.length = 2 * 2 ∧ 0 < 2 ∧ 1 < 2 ∧
    (mm_jik 2 [1, 2, 3, 4] [5, 6, 7, 8] (CArr.init [7, 7, 7, 7]) : CArr ℤ).cells[0 * 2 + 1]? =
      some (∑ k in Finset.range 2,
        rd [1, 2, 3, 4] (0 * 2 + k) * rd [5, 6, 7, 8] (k * 2 + 1)) :=
  ⟨by decide, rfl, by decide, by decide,
    mm_jik_matches_reference 2 [1, 2, 3, 4] [5, 6, 7, 8] (CArr.init [7, 7, 7, 7]) (by decide)
      rfl 0 1 (by decide) (by decide)⟩

/-- C2 as stated fails at `N = 46341`, `A` and `B` all `0`, `C` all `1`: for
`r = 46340`, `c = 41708` the `int` index `r*N+c` is `2^31` reduced to `-2^31`,
no store reaches cell `r*N+c`, and it keeps its `1` where the sum is `0`. -/
theorem mm_jik_overflow_counterexample :
    (CArr.init (List.replicate (46341 * 46341) 1) : CArr ℤ).cells.length = 46341 * 46341 ∧
    46340 < 46341 ∧ 41708 < 46341 ∧
    (mm_jik 46341 (List.replicate (46341 * 46341) 0) (List.replicate (46341 * 46341) 0)
        (CArr.init (List.replicate (46341 * 46341) 1)) : CArr ℤ).cells[46340 * 46341 + 41708]?
      = some 1 ∧
    (∑ k in Finset.range 46341,
      rd (List.replicate (46341 * 46341) (0 : ℤ)) (46340 * 46341 + k)
        * rd (List.replicate (46341 * 46341) (0 : ℤ)) (k * 46341 + 41708)) = 0 ∧
    idx32 46340 46341 41708 = -2147483648 := by
  refine ⟨List.length_replicate _ _, by decide, by decide, ?_, ?_, by decide⟩
  · unfold mm_jik
    rw [storeAt_nest_stale 46341 (fun j i => idx32 j 46341 i) _ 46341 _ (46340 * 46341 + 41708)
      (fun a b => by beta_reduce; have := idx32_le a 46341 b; omega)]
    show (List.replicate (46341 * 46341) (1 : ℤ))[46340 * 46341 + 41708]? = some 1
    rw [List.getElem?_replicate, if_pos (by decide)]
  · exact Finset.sum_eq_zero (fun k _ => by rw [rd_replicate_zero, zero_mul])

/-- The store log of `mm_ijk` when `N*N` fits an `int`: one store to each index
of `[0, N*N)`, in increasing order. -/
theorem mm_ijk_stores [Zero R] [Add R] [Mul R] (N : Nat) (A B : List R) (C : CArr R)
    (hN : N * N ≤ 2147483647) :
    (mm_ijk N A B C).stores = C.stores ++ (List.range (N * N)).map (fun t : Nat => (t : Int)) := by
  rw [mm_ijk_unwrapped N A B C hN]
  exact forLoop_store_grid_stores N _ N C

/-- The store log of `mm_jik` when `N*N` fits an `int`: one store to each index
of `[0, N*N)`, in increasing order. -/
theorem mm_jik_stores [Zero R] [Add R] [Mul R] (N : Nat) (A B : List R) (C : CArr R)
    (hN : N * N ≤ 2147483647) :
    (mm_jik N A B C).stores = C.stores ++ (List.range (N * N)).map (fun t : Nat => (t : Int)) := by
  rw [mm_jik_unwrapped N A B C hN]
  exact forLoop_store_grid_stores N _ N C

/-- C3. At `N = 2`, `A = [1,2,3,4]`, `B = [5,6,7,8]`, `C = [7,7,7,7]` the kernel
`mm_kij` stores to indices `4, 5, 4, 5` only, so `C` is left as it was, while
cell `(0, 0)` of the product is `19`. -/
theorem mm_kij_misses_reference :
    (mm_kij 2 [1, 2, 3, 4] [5, 6, 7, 8] (CArr.init [7, 7, 7, 7]) : CArr ℤ)
      = { cells := [7, 7, 7, 7], stores := [4, 5, 4, 5] } ∧
    (∑ k in Finset.range 2, rd [1, 2, 3, 4] (0 * 2 + k) * rd [5, 6, 7, 8] (k * 2 + 0) : ℤ)
      = 19 :=
  ⟨by decide, by decide⟩

/-- C4. At `N = 2`, `A = [1,2,3,4]`, `B = [5,6,7,8]`, `C = [7,7,7,7]` the kernel
`mm_ikj` stores to indices `4, 4, 5, 5` only, so `C` is left as it was, while
cell `(0, 1)` of the product is `22`. -/
theorem mm_ikj_misses_reference :
    (mm_ikj 2 [1, 2, 3, 4] [5, 6, 7, 8] (CArr.init [7, 7, 7, 7]) : CArr ℤ)
      = { cells := [7, 7, 7, 7], stores := [4, 4, 5, 5] } ∧
    (∑ k in Finset.range 2, rd [1, 2, 3, 4] (0 * 2 + k) * rd [5, 6, 7, 8] (k * 2 + 1) : ℤ)
      = 22 :=
  ⟨by decide, by decide⟩

/-- C5. At `N = 2`, `A = [1,2,3,4]`, `B = [5,6,7,8]`, `C = [7,7,7,7]` the kernel
`mm_jki` stores to indices `2, 2, 4, 4`: it leaves `C = [7,7,22,7]`, while the
product is `[19,22,43,50]` (cell `(1, 0)` is `43`). -/
theorem mm_jki_misses_reference :
    (mm_jki 2 [1, 2, 3, 4] [5, 6, 7, 8] (CArr.init [7, 7, 7, 7]) : CArr ℤ)
      = { cells := [7, 7, 22, 7], stores := [2, 2, 4, 4] } ∧
    (∑ k in Finset.range 2, rd [1, 2, 3, 4] (1 * 2 + k) * rd [5, 6, 7, 8] (k * 2 + 0) : ℤ)
      = 43 :=
  ⟨by decide, by decide⟩

/-- C6. At `N = 2`, `A = [1,2,3,4]`, `B = [5,6,7,8]`, `C = [7,7,7,7]` the kernel
`mm_kji` stores to indices `2, 4, 2, 4`: it leaves `C = [7,7,43,7]`, while the
product is `[19,22,43,50]` (cell `(1, 1)` is `50`). -/
theorem mm_kji_misses_reference :
    (mm_kji 2 [1, 2, 3, 4] [5, 6, 7, 8] (CArr.init [7, 7, 7, 7]) : CArr ℤ)
      = { cells := [7, 7, 43, 7], stores := [2, 4, 2, 4] } ∧
    (∑ k in Finset.range 2, rd [1, 2, 3, 4] (1 * 2 + k) * rd [5, 6, 7, 8] (k * 2 + 1) : ℤ)
      = 50 :=
  ⟨by decide, by decide⟩

/-- C7. The body of `mm_ijk_blocking` is empty: it returns `C` as it was on every
input, and at `N = 2`, `bsize = 1`, `A = [1,2,3,4]`, `B = [5,6,7,8]`,
`C = [7,7,7,7]` it leaves `[7,7,7,7]` where `mm_ijk` leaves `[19,22,43,50]`. -/
theorem mm_ijk_blocking_differs_from_mm_ijk :
    (∀ (N : Nat) (A B : List ℤ) (C : CArr ℤ) (bsize : Nat),
        mm_ijk_blocking N A B C bsize = C) ∧
    (mm_ijk_blocking 2 [1, 2, 3, 4] [5, 6, 7, 8] (CArr.init [7, 7, 7, 7]) 1 : CArr ℤ).cells
      = [7, 7, 7, 7] ∧
    (mm_ijk 2 [1, 2, 3, 4] [5, 6, 7, 8] (CArr.init [7, 7, 7, 7]) : CArr ℤ).cells
      = [19, 22, 43, 50] :=
  ⟨fun _ _ _ _ _ => rfl, by decide, by decide⟩

/-- C8. The body of `mm_cb` is empty: it returns `C` as it was on every input,
and at `N = 1`, `bsize = 1`, `A = [2]`, `B = [3]`, `C = [7]` it leaves `[7]`
where `mm_ijk` leaves `[6]`. -/
theorem mm_cb_differs_from_mm_ijk :
    (∀ (N : Nat) (A B : List ℤ) (C : CArr ℤ) (bsize : Nat), mm_cb N A B C bsize = C) ∧
    (mm_cb 1 [2] [3] (CArr.init [7]) 1 : CArr ℤ).cells = [7] ∧
    (mm_ijk 1 [2] [3] (CArr.init [7]) : CArr ℤ).cells = [6] :=
  ⟨fun _ _ _ _ _ => rfl, by decide, by decide⟩

/-- C9. At `N = 2` the kernels `mm_kij`, `mm_ikj`, `mm_jki` and `mm_kji` store to
the indices `4,5,4,5`, `4,4,5,5`, `2,2,4,4` and `2,4,2,4`: cells `0`, `1` and `3`
are never stored to, index `2` or an index past the array is stored to twice,
and the `7` held by `C[0]` before the call survives each of them. -/
theorem loop_kernels_miss_full_coverage :
    (mm_kij 2 [1, 2, 3, 4] [5, 6, 7, 8] (CArr.init [7, 7, 7, 7]) : CArr ℤ).stores
      = [4, 5, 4, 5] ∧
    (mm_ikj 2 [1, 2, 3, 4] [5, 6, 7, 8] (CArr.init [7, 7, 7, 7]) : CArr ℤ).stores
      = [4, 4, 5, 5] ∧
    (mm_jki 2 [1, 2, 3, 4] [5, 6, 7, 8] (CArr.init [7, 7, 7, 7]) : CArr ℤ).stores
      = [2, 2, 4, 4] ∧
    (mm_kji 2 [1, 2, 3, 4] [5, 6, 7, 8] (CArr.init [7, 7, 7, 7]) : CArr ℤ).stores
      = [2, 4, 2, 4] ∧
    (mm_kij 2 [1, 2, 3, 4] [5, 6, 7, 8] (CArr.init [7, 7, 7, 7]) : CArr ℤ).cells[0]?
      = some 7 ∧
    (mm_ikj 2 [1, 2, 3, 4] [5, 6, 7, 8] (CArr.init [7, 7, 7, 7]) : CArr ℤ).cells[0]?
      = some 7 ∧
    (mm_jki 2 [1, 2, 3, 4] [5, 6, 7, 8] (CArr.init [7, 7, 7, 7]) : CArr ℤ).cells[0]?
      = some 7 ∧
    (mm_kji 2 [1, 2, 3, 4] [5, 6, 7, 8] (CArr.init [7, 7, 7, 7]) : CArr ℤ).cells[0]?
      = some 7 :=
  ⟨by decide, by decide, by decide, by decide, by decide, by decide, by decide, by decide⟩

end Product

end MM

/-! ## The derived metrics of a report row -/

namespace MM

/-- C10. For every counter tuple `(LST, L1, L2, L3)` whose denominators `LST`,
`L1`, `L2` are not zero, the three rates of a report row are the finite values
`L1/LST`, `L2/L1` and `L3/L2`, in that order (counter 1 over 0, 2 over 1,
3 over 2), whatever `N` and the elapsed time are. -/
theorem report_row_miss_rates (N : Int) (elapsed : ℚ)
    (PAPI_Values : Fin NUM_PAPI_EVENTS → Int)
    (h0 : PAPI_Values 0 ≠ 0) (h1 : PAPI_Values 1 ≠ 0) (h2 : PAPI_Values 2 ≠ 0) :
    (report_row N elapsed PAPI_Values).l1_rate
        = Dbl.fin ((PAPI_Values 1 : ℚ) / (PAPI_Values 0 : ℚ)) ∧
    (report_row N elapsed PAPI_Values).l2_rate
        = Dbl.fin ((PAPI_Values 2 : ℚ) / (PAPI_Values 1 : ℚ)) ∧
    (report_row N elapsed PAPI_Values).l3_rate
        = Dbl.fin ((PAPI_Values 3 : ℚ) / (PAPI_Values 2 : ℚ)) := by
  have q0 : (PAPI_Values 0 : ℚ) ≠ 0 := Int.cast_ne_zero.mpr h0
  have q1 : (PAPI_Values 1 : ℚ) ≠ 0 := Int.cast_ne_zero.mpr h1
  have q2 : (PAPI_Values 2 : ℚ) ≠ 0 := Int.cast_ne_zero.mpr h2
  refine ⟨?_, ?_, ?_⟩
  · show ddiv _ _ = _
    rw [ddiv, if_neg q0]
  · show ddiv _ _ = _
    rw [ddiv, if_neg q1]
  · show ddiv _ _ = _
    rw [ddiv, if_neg q2]

/-- Instance of C10 at the tuple `(1000, 200, 50, 10)`: the rates are exactly
`0.2`, `0.25` and `0.2`. -/
theorem report_row_miss_rates_witness :
    (![1000, 200, 50, 10] : Fin NUM_PAPI_EVENTS → Int) 0 ≠ 0 ∧
    (![1000, 200, 50, 10] : Fin NUM_PAPI_EVENTS → Int) 1 ≠ 0 ∧
    (![1000, 200, 50, 10] : Fin NUM_PAPI_EVENTS → Int) 2 ≠ 0 ∧
    (report_row 512 1 ![1000, 200, 50, 10]).l1_rate = Dbl.fin 0.2 ∧
    (report_row 512 1 ![1000, 200, 50, 10]).l2_rate = Dbl.fin 0.25 ∧
    (report_row 512 1 ![1000, 200, 50, 10]).l3_rate = Dbl.fin 0.2 := by
  have h := report_row_miss_rates 512 1 ![1000, 200, 50, 10]
    (by decide) (by decide) (by decide)
  refine ⟨by decide, by decide, by decide, ?_, ?_, ?_⟩
  · rw [h.1]; congr 1; norm_num
  · rw [h.2.1]; congr 1; norm_num
  · rw [h.2.2]; congr 1; norm_num

end MM

namespace MM

/-- C11. For every `N` (in particular `N >= 1`) and every elapsed time `t > 0`
in seconds, the MFLOPS value of a report row is the finite value
`2*N^3 / (10^6 * t)`, arithmetic taken exactly. -/
theorem report_row_mflops (N : Int) (t : ℚ) (PAPI_Values : Fin NUM_PAPI_EVENTS → Int)
    (ht : 0 < t) :
    (report_row N t PAPI_Values).mflops = Dbl.fin (2 * (N : ℚ) ^ 3 / (10 ^ 6 * t)) := by
  have hd : (1000000 : ℚ) * t ≠ 0 := by positivity
  show ddiv _ _ = _
  rw [ddiv, if_neg hd]
  congr 1
  ring

/-- Instance of C11 at `N = 512`, `t = 1`: the MFLOPS value is `268.435456`. -/
theorem report_row_mflops_witness :
    (0 : ℚ) < 1 ∧
    (report_row 512 1 ![1000, 200, 50, 10]).mflops = Dbl.fin 268.435456 := by
  have h := report_row_mflops 512 1 ![1000, 200, 50, 10] (by norm_num)
  refine ⟨by norm_num, ?_⟩
  rw [h]; congr 1; norm_num

/-- C12. For every counter tuple with a zero miss-rate denominator, the row is
still produced; a rate cell is non-finite exactly when its own denominator is
zero (so at least one is), every rate cell with a non-zero denominator holds
its usual quotient, and the runtime and MFLOPS cells are those of any other
counter tuple. -/
theorem report_row_zero_denominator (N : Int) (elapsed : ℚ)
    (PAPI_Values : Fin NUM_PAPI_EVENTS → Int)
    (hz : PAPI_Values 0 = 0 ∨ PAPI_Values 1 = 0 ∨ PAPI_Values 2 = 0) :
    ((report_row N elapsed PAPI_Values).l1_rate.isFinite = false ∨
      (report_row N elapsed PAPI_Values).l2_rate.isFinite = false ∨
      (report_row N elapsed PAPI_Values).l3_rate.isFinite = false) ∧
    ((report_row N elapsed PAPI_Values).l1_rate.isFinite = false ↔ PAPI_Values 0 = 0) ∧
    ((report_row N elapsed PAPI_Values).l2_rate.isFinite = false ↔ PAPI_Values 1 = 0) ∧
    ((report_row N elapsed PAPI_Values).l3_rate.isFinite = false ↔ PAPI_Values 2 = 0) ∧
    (PAPI_Values 0 ≠ 0 → (report_row N elapsed PAPI_Values).l1_rate
        = Dbl.fin ((PAPI_Values 1 : ℚ) / (PAPI_Values 0 : ℚ))) ∧
    (PAPI_Values 1 ≠ 0 → (report_row N elapsed PAPI_Values).l2_rate
        = Dbl.fin ((PAPI_Values 2 : ℚ) / (PAPI_Values 1 : ℚ))) ∧
    (PAPI_Values 2 ≠ 0 → (report_row N elapsed PAPI_Values).l3_rate
        = Dbl.fin ((PAPI_Values 3 : ℚ) / (PAPI_Values 2 : ℚ))) ∧
    (∀ other : Fin NUM_PAPI_EVENTS → Int,
      (report_row N elapsed PAPI_Values).runtime_ms = (report_row N elapsed other).runtime_ms ∧
      (report_row N elapsed PAPI_Values).mflops = (report_row N elapsed other).mflops) := by
  have key : ∀ x y : ℚ, ((ddiv x y).isFinite = false ↔ y = 0) := by
    intro x y
    unfold ddiv
    by_cases hy : y = 0
    · simp only [hy, if_true, iff_true]
      split_ifs <;> rfl
    · simp [hy, Dbl.isFinite]
  have fin_of : ∀ x y : ℚ, y ≠ 0 → ddiv x y = Dbl.fin (x / y) := by
    intro x y hy
    rw [ddiv, if_neg hy]
  have c0 : ((report_row N elapsed PAPI_Values).l1_rate.isFinite = false ↔ PAPI_Values 0 = 0) :=
    (key _ _).trans Int.cast_eq_zero
  have c1 : ((report_row N elapsed PAPI_Values).l2_rate.isFinite = false ↔ PAPI_Values 1 = 0) :=
    (key _ _).trans Int.cast_eq_zero
  have c2 : ((report_row N elapsed PAPI_Values).l3_rate.isFinite = false ↔ PAPI_Values 2 = 0) :=
    (key _ _).trans Int.cast_eq_zero
  refine ⟨?_, c0, c1, c2, ?_, ?_, ?_, fun _ => ⟨rfl, rfl⟩⟩
  · rcases hz with h | h | h
    · exact Or.inl (c0.mpr h)
    · exact Or.inr (Or.inl (c1.mpr h))
    · exact Or.inr (Or.inr (c2.mpr h))
  · exact fun h => fin_of _ _ (Int.cast_ne_zero.mpr h)
  · exact fun h => fin_of _ _ (Int.cast_ne_zero.mpr h)
  · exact fun h => fin_of _ _ (Int.cast_ne_zero.mpr h)

/-- Instance of C12 at `LST = 0`: for the tuple `(0, 200, 50, 10)` the L1 cell is
not finite while the L2 and L3 cells are `0.25` and `0.2`. -/
theorem report_row_zero_denominator_witness :
    ((![0, 200, 50, 10] : Fin NUM_PAPI_EVENTS → Int) 0 = 0 ∨
      (![0, 200, 50, 10] : Fin NUM_PAPI_EVENTS → Int) 1 = 0 ∨
      (![0, 200, 50, 10] : Fin NUM_PAPI_EVENTS → Int) 2 = 0) ∧
    (report_row 512 1 ![0, 200, 50, 10]).l1_rate.isFinite = false ∧
    (report_row 512 1 ![0, 200, 50, 10]).l2_rate = Dbl.fin 0.25 ∧
    (report_row 512 1 ![0, 200, 50, 10]).l3_rate = Dbl.fin 0.2 := by
  have h := report_row_zero_denominator 512 1 ![0, 200, 50, 10] (Or.inl (by decide))
  refine ⟨Or.inl (by decide), h.2.1.mpr (by decide), ?_, ?_⟩
  · rw [h.2.2.2.2.2.1 (by decide)]; congr 1; norm_num
  · rw [h.2.2.2.2.2.2.1 (by decide)]; congr 1; norm_num

/-- C13. With no extra argument the configuration is `(512, 32)`; with exactly
one extra argument `N` is the integer value of that argument and `bsize = 32`;
with exactly two extra arguments `bsize` is the integer value of the second one
and `N` stays `512` whatever the first one is. -/
theorem parse_args_configuration (atoi : String → Int) (prog a1 a2 : String) :
    parse_args atoi [prog] = { N := 512, bsize := 32 } ∧
    parse_args atoi [prog, a1] = { N := atoi a1, bsize := 32 } ∧
    parse_args atoi [prog, a1, a2] = { N := 512, bsize := atoi a2 } :=
  ⟨rfl, rfl, rfl⟩

/-- C14. Whatever the argument count, one run of `main` invokes the kernels
`mm_ijk` and `mm_jik` only and prints a row for these two only: the report has
2 kernel rows, not one for each of the 8 kernels of the library. -/
theorem main_measures_two_kernels (argc : Nat) :
    measured (main_events argc) = [Kernel.mm_ijk, Kernel.mm_jik] ∧
    reported (main_events argc) = [Kernel.mm_ijk, Kernel.mm_jik] ∧
    (reported (main_events argc)).length = 2 ∧
    kernel_library.length = 8 ∧
    reported (main_events argc) ≠ kernel_library := by
  unfold main_events
  split <;> decide

/-- C15. In every run of `main`, each kernel the driver measures sits in a
contiguous window flush A, flush B, flush C, read start time, reset counters,
invoke the kernel, read its counters, read end time; there are exactly as many
counter resets, and as many counter reads, as measured kernels, so none falls
between a kernel's reset and its read; and no matrix is initialised from the
first kernel invocation on. -/
theorem main_window_discipline (argc : Nat) :
    (∀ k ∈ measured (main_events argc), window k <:+: main_events argc) ∧
    (main_events argc).count Event.papi_reset = (measured (main_events argc)).length ∧
    ((main_events argc).filter (fun e => e matches Event.papi_read _)).length
      = (measured (main_events argc)).length ∧
    (((main_events argc).dropWhile (fun e => !e.isCall)).all (fun e => !e.isInit)) = true ∧
    (measured (main_events argc)).Nodup := by
  unfold main_events
  split <;> decide

/-- C16. For every `N`, `A`, `B` and initial `C`, over any element type with
`0`, `+` and `*` and no law assumed of them, `mm_jik` ends in the same state as
`mm_ijk`: the same cells and the same store log. -/
theorem mm_jik_eq_mm_ijk {R : Type} [Zero R] [Add R] [Mul R] (N : Nat) (A B : List R)
    (C : CArr R) :
    mm_jik N A B C = mm_ijk N A B C :=
  rfl

end MM

/-! ## The four kernels that store through an exhausted loop variable -/

namespace MM

section Misplaced

variable {R : Type}

/-- Store log of one loop of stores `C[idx b] = val b`, `b < n`. -/
theorem forLoop_store_log (idx : Nat → Nat) (val : Nat → R) (n : Nat) (c : CArr R) :
    (forLoop n (fun b st => CArr.store st (idx b) (val b)) c).stores =
      c.stores ++ (List.range n).map (fun b : Nat => ((idx b : Nat) : Int)) := by
  induction n with
  | zero => simp [forLoop_zero]
  | succ n ih =>
    rw [forLoop_succ, store_stores, ih, List.range_succ, List.map_append, List.append_assoc]
    rfl

/-- Store log of a nest of two loops of stores `C[idx a b] = val a b`: iteration
number `t` of the nest is `a = t / N`, `b = t % N`. -/
theorem forLoop_store_nest_log (N : Nat) (idx : Nat → Nat → Nat) (val : Nat → Nat → R)
    (n : Nat) (c : CArr R) :
    (forLoop n (fun a st =>
        forLoop N (fun b st => CArr.store st (idx a b) (val a b)) st) c).stores =
      c.stores ++
        (List.range (n * N)).map (fun t : Nat => ((idx (t / N) (t % N) : Nat) : Int)) := by
  induction n with
  | zero => simp [forLoop_zero]
  | succ n ih =>
    rw [forLoop_succ, forLoop_store_log, ih, Nat.succ_mul, List.range_add, List.map_append,
      List.append_assoc, List.map_map]
    congr 2
    apply List.map_congr_left
    intro b hb
    have hb : b < N := List.mem_range.mp hb
    have hd := rowMajor_decode N n b hb
    show ((idx n b : Nat) : Int) = ((idx ((n * N + b) / N) ((n * N + b) % N) : Nat) : Int)
    rw [hd.1, hd.2]

/-- A nest of stores that all fall outside the array leaves the cells alone. -/
theorem forLoop_store_nest_outside (N : Nat) (idx : Nat → Nat → Nat) (val : Nat → Nat → R)
    (n : Nat) (c : CArr R) (hout : ∀ a b, c.cells.length ≤ idx a b) :
    (forLoop n (fun a st =>
        forLoop N (fun b st => CArr.store st (idx a b) (val a b)) st) c).cells = c.cells := by
  apply forLoop_invariant (fun st : CArr R => st.cells = c.cells)
  · intro a t ht
    apply forLoop_invariant (fun st : CArr R => st.cells = c.cells)
    · intro b u hu
      rw [store_cells, hu]
      exact List.set_eq_of_length_le (hout a b)
    · exact ht
  · rfl

/-- An iteration number of an `N x N` nest splits into two counters below `N`. -/
theorem nest_counters_lt (N t : Nat) (ht : t < N * N) : t / N < N ∧ t % N < N := by
  have hN : 0 < N := by
    rcases Nat.eq_zero_or_pos N with h | h
    · subst h; omega
    · exact h
  exact ⟨Nat.div_lt_of_lt_mul ht, Nat.mod_lt t hN⟩

/-- The store log of `mm_kij` when `N*N + N` fits an `int`: iteration `(k, i)`
stores to `N*N + i`. -/
theorem mm_kij_stores [Zero R] [Add R] [Mul R] (N : Nat) (A B : List R) (C : CArr R)
    (hN : N * N + N ≤ 2147483647) :
    (mm_kij N A B C).stores =
      C.stores ++ (List.range (N * N)).map (fun t : Nat => ((N * N + t % N : Nat) : Int)) := by
  rw [mm_kij_unwrapped N A B C hN]
  exact forLoop_store_nest_log N (fun _ i => N * N + i) _ N C

/-- The store log of `mm_ikj` when `N*N + N` fits an `int`: iteration `(i, k)`
stores to `N*N + i`. -/
theorem mm_ikj_stores [Zero R] [Add R] [Mul R] (N : Nat) (A B : List R) (C : CArr R)
    (hN : N * N + N ≤ 2147483647) :
    (mm_ikj N A B C).stores =
      C.stores ++ (List.range (N * N)).map (fun t : Nat => ((N * N + t / N : Nat) : Int)) := by
  rw [mm_ikj_unwrapped N A B C hN]
  exact forLoop_store_nest_log N (fun i _ => N * N + i) _ N C

/-- C17, amended. For every `N` with `N*N + N <= 2147483647` (every index fits
an `int`) and every `C` of length `N*N`, each of `mm_kij` and `mm_ikj` performs
`N*N` stores, every one of them to an index `N*N + i` with `i < N`, hence
outside `[0, N*N)`, and leaves every cell of `C` as it was. -/
theorem mm_kij_ikj_store_outside [Zero R] [Add R] [Mul R] (N : Nat) (A B : List R)
    (C : CArr R) (hN : N * N + N ≤ 2147483647) (hC : C.cells.length = N * N) :
    ((mm_kij N A B C).cells = C.cells ∧
      ∃ log, (mm_kij N A B C).stores = C.stores ++ log ∧ log.length = N * N ∧
        ∀ x ∈ log, (∃ i, i < N ∧ x = ((N * N + i : Nat) : Int)) ∧
          ¬ x < ((N * N : Nat) : Int)) ∧
    ((mm_ikj N A B C).cells = C.cells ∧
      ∃ log, (mm_ikj N A B C).stores = C.stores ++ log ∧ log.length = N * N ∧
        ∀ x ∈ log, (∃ i, i < N ∧ x = ((N * N + i : Nat) : Int)) ∧
          ¬ x < ((N * N : Nat) : Int)) := by
  refine ⟨⟨?_, _, mm_kij_stores N A B C hN, by simp, ?_⟩,
    ⟨?_, _, mm_ikj_stores N A B C hN, by simp, ?_⟩⟩
  · rw [mm_kij_unwrapped N A B C hN]
    exact forLoop_store_nest_outside N (fun _ i => N * N + i) _ N C
      (fun _ i => hC ▸ Nat.le_add_right (N * N) i)
  · intro x hx
    obtain ⟨t, ht, rfl⟩ := List.mem_map.mp hx
    have ht : t < N * N := List.mem_range.mp ht
    exact ⟨⟨t % N, (nest_counters_lt N t ht).2, rfl⟩,
      by exact_mod_cast Nat.not_lt.mpr (Nat.le_add_right (N * N) (t % N))⟩
  · rw [mm_ikj_unwrapped N A B C hN]
    exact forLoop_store_nest_outside N (fun i _ => N * N + i) _ N C
      (fun i _ => hC ▸ Nat.le_add_right (N * N) i)
  · intro x hx
    obtain ⟨t, ht, rfl⟩ := List.mem_map.mp hx
    have ht : t < N * N := List.mem_range.mp ht
    exact ⟨⟨t / N, (nest_counters_lt N t ht).1, rfl⟩,
      by exact_mod_cast Nat.not_lt.mpr (Nat.le_add_right (N * N) (t / N))⟩

/-- Instance of C17 at `N = 2` over the integers. -/
theorem mm_kij_ikj_store_outside_witness :
    2 * 2 + 2 ≤ 2147483647 ∧
    (CArr.init [7, 7, 7, 7] : CArr ℤ).cells.length = 2 * 2 ∧
    (mm_kij 2 [1, 2, 3, 4] [5, 6, 7, 8] (CArr.init [7, 7, 7, 7]) : CArr ℤ).cells
      = (CArr.init [7, 7, 7, 7] : CArr ℤ).cells ∧
    (mm_ikj 2 [1, 2, 3, 4] [5, 6, 7, 8] (CArr.init [7, 7, 7, 7]) : CArr ℤ).cells
      = (CArr.init [7, 7, 7, 7] : CArr ℤ).cells :=
  ⟨by decide, rfl,
    (mm_kij_ikj_store_outside 2 [1, 2, 3, 4] [5, 6, 7, 8] (CArr.init [7, 7, 7, 7])
      (by decide) rfl).1.1,
    (mm_kij_ikj_store_outside 2 [1, 2, 3, 4] [5, 6, 7, 8] (CArr.init [7, 7, 7, 7])
      (by decide) rfl).2.1⟩

/-- Every accumulation over arrays of zeros is zero. -/
theorem acc_zeros (M N : Nat) (ia ib : Nat → Int) :
    forLoop N (fun j sum =>
        sum + rdAt (List.replicate M (0 : ℤ)) (ia j) * rdAt (List.replicate M (0 : ℤ)) (ib j))
      (0 : ℤ) = 0 := by
  apply forLoop_invariant (fun s : ℤ => s = 0)
  · intro j t ht
    show t + rdAt (List.replicate M (0 : ℤ)) (ia j) * rdAt (List.replicate M (0 : ℤ)) (ib j) = 0
    rw [ht, rdAt_replicate_zero, zero_mul, add_zero]
  · rfl

/-- The kernel `mm_kij` on arrays of zeros stores zeros. -/
theorem mm_kij_zeros (N M : Nat) (C : CArr ℤ) :
    mm_kij N (List.replicate M 0) (List.replicate M 0) C =
      forLoop N (fun _ st => forLoop N (fun i st =>
        CArr.storeAt st (idx32 N N i) 0) st) C := by
  unfold mm_kij
  simp only [acc_zeros]

/-- When the `int` index of the first store is `0`, a nest that stores zeros at
the indices `idx32 N N i` leaves a zero in cell `0` of a non-empty array. -/
theorem zero_store_reaches (N : Nat) (hN : 0 < N) (hidx : idx32 N N 0 = 0) (c : CArr ℤ)
    (hc : 0 < c.cells.length) :
    (forLoop N (fun _ st => forLoop N (fun i st =>
        CArr.storeAt st (idx32 N N i) 0) st) c).cells[0]? = some 0 := by
  have keep : ∀ (m : Nat) (s : CArr ℤ), s.cells[0]? = some 0 →
      (CArr.storeAt s (idx32 N N m) 0).cells[0]? = some 0 := by
    intro m s hs
    by_cases h : idx32 N N m = 0
    · rw [h]
      apply storeAt_zero
      by_contra hlen
      rw [List.getElem?_eq_none (by omega)] at hs
      exact Option.noConfusion hs
    · rw [storeAt_miss s _ _ 0 (by simpa using h)]
      exact hs
  have first : ∀ s : CArr ℤ, 0 < s.cells.length →
      (forLoop N (fun i st => CArr.storeAt st (idx32 N N i) 0) s).cells[0]? = some 0 := by
    intro s hs
    refine forLoop_establish (fun st : CArr ℤ => 0 < st.cells.length)
      (fun st : CArr ℤ => st.cells[0]? = some 0)
      (fun i st => CArr.storeAt st (idx32 N N i) 0) ?_ keep N hN s hs
    intro t ht
    show (CArr.storeAt t (idx32 N N 0) 0).cells[0]? = some 0
    rw [hidx]
    exact storeAt_zero t 0 ht
  refine forLoop_establish (fun st : CArr ℤ => 0 < st.cells.length)
    (fun st : CArr ℤ => st.cells[0]? = some 0)
    (fun _ st => forLoop N (fun i st => CArr.storeAt st (idx32 N N i) 0) st)
    first ?_ N hN c hc
  intro m s hs
  exact forLoop_invariant (fun st : CArr ℤ => st.cells[0]? = some 0)
    (fun i st => CArr.storeAt st (idx32 N N i) 0) (fun i t ht => keep i t ht) N s hs

/-- C17 as stated fails at `N = 65536`, `A` and `B` all `0`, `C` all `1`: the
`int` product `j*N` with `j = N` is `2^32` reduced to `0`, so the first store
of `mm_kij` goes to index `0`, inside `[0, N*N)`, and cell `0` ends as `0`
where it held `1`. -/
theorem mm_kij_overflow_counterexample :
    (CArr.init (List.replicate (65536 * 65536) 1) : CArr ℤ).cells.length = 65536 * 65536 ∧
    idx32 65536 65536 0 = 0 ∧
    (0 : Int) ∈ (mm_kij 65536 (List.replicate (65536 * 65536) 0)
        (List.replicate (65536 * 65536) 0)
        (CArr.init (List.replicate (65536 * 65536) 1)) : CArr ℤ).stores ∧
    (mm_kij 65536 (List.replicate (65536 * 65536) 0) (List.replicate (65536 * 65536) 0)
        (CArr.init (List.replicate (65536 * 65536) 1)) : CArr ℤ).cells[0]? = some 0 ∧
    (CArr.init (List.replicate (65536 * 65536) 1) : CArr ℤ).cells[0]? = some 1 := by
  have hidx : idx32 65536 65536 0 = 0 := by decide
  refine ⟨List.length_replicate _ _, hidx, ?_, ?_, ?_⟩
  · rw [mm_kij_zeros, forLoop_storeAt_nest_log 65536 (fun _ i => idx32 65536 65536 i)]
    apply List.mem_append_right
    exact List.mem_map.mpr ⟨0, List.mem_range.mpr (by decide), hidx⟩
  · rw [mm_kij_zeros]
    apply zero_store_reaches 65536 (by decide) hidx
    show 0 < (List.replicate (65536 * 65536) (1 : ℤ)).length
    rw [List.length_replicate]
    decide
  · show (List.replicate (65536 * 65536) (1 : ℤ))[0]? = some 1
    rw [List.getElem?_replicate, if_pos (by decide)]

/-- Cells after `n` stores to one and the same index `q`: the last value wins. -/
theorem forLoop_store_same (q : Nat) (val : Nat → R) (n : Nat) (c : CArr R) (p : Nat) :
    (forLoop n (fun k st => CArr.store st q (val k)) c).cells[p]? =
      if 0 < n ∧ p = q ∧ q < c.cells.length then some (val (n - 1)) else c.cells[p]? := by
  cases n with
  | zero =>
    have h : ¬ (0 < 0 ∧ p = q ∧ q < c.cells.length) := by omega
    rw [forLoop_zero, if_neg h]
  | succ n =>
    rw [forLoop_succ, store_cells, List.getElem?_set, forLoop_store_length (fun _ => q)]
    by_cases hp : q = p
    · subst hp
      by_cases hl : q < c.cells.length
      · rw [if_pos rfl, if_pos hl, if_pos ⟨Nat.succ_pos n, rfl, hl⟩]
        rfl
      · have h2 : ¬ (0 < n + 1 ∧ q = q ∧ q < c.cells.length) := fun h => hl h.2.2
        rw [if_pos rfl, if_neg hl, if_neg h2]
        exact (List.getElem?_eq_none (by omega)).symm
    · have h2 : ¬ (0 < n + 1 ∧ p = q ∧ q < c.cells.length) := fun h => hp h.2.1.symm
      rw [if_neg hp, if_neg h2]
      have := forLoop_store_same q val n c p
      rw [this, if_neg (fun h => hp h.2.1.symm)]

/-- A loop whose iteration `a` writes the value `w a` to the cell `idx a` and
nothing else, the indices being pairwise distinct: the cell `idx a` ends with
`w a`, and a cell that is no `idx a` keeps its value. -/
theorem forLoop_single_writes (idx : Nat → Nat) (w : Nat → R)
    (body : Nat → CArr R → CArr R)
    (hlen : ∀ a st, (body a st).cells.length = st.cells.length)
    (hhit : ∀ a st, idx a < st.cells.length → (body a st).cells[idx a]? = some (w a))
    (hmiss : ∀ a st p, p ≠ idx a → (body a st).cells[p]? = st.cells[p]?)
    (hinj : ∀ a b, idx a = idx b → a = b) (n : Nat) (c : CArr R) :
    (forLoop n body c).cells.length = c.cells.length ∧
    (∀ a, a < n → idx a < c.cells.length → (forLoop n body c).cells[idx a]? = some (w a)) ∧
    (∀ p, (∀ a, a < n → idx a ≠ p) → (forLoop n body c).cells[p]? = c.cells[p]?) := by
  induction n with
  | zero =>
    exact ⟨rfl, fun a ha => absurd ha (Nat.not_lt_zero a), fun _ _ => rfl⟩
  | succ n ih =>
    obtain ⟨ihl, ihh, ihm⟩ := ih
    refine ⟨?_, ?_, ?_⟩
    · rw [forLoop_succ, hlen, ihl]
    · intro a ha hin
      rw [forLoop_succ]
      by_cases han : a = n
      · subst han
        exact hhit a _ (by rw [ihl]; exact hin)
      · rw [hmiss n _ (idx a) (fun h => han (hinj a n h))]
        exact ihh a (by omega) hin
    · intro p hp
      rw [forLoop_succ, hmiss n _ p (fun h => hp n (Nat.lt_succ_self n) h.symm)]
      exact ihm p (fun a ha => hp a (Nat.lt_succ_of_lt ha))

/-- A loop whose every iteration `k` rewrites the same family of cells `idx j`,
`j < N`, with the values `w k j`, and nothing else: after at least one
iteration the cells hold the values of the last one. -/
theorem forLoop_overwrites (N : Nat) (idx : Nat → Nat) (w : Nat → Nat → R)
    (body : Nat → CArr R → CArr R)
    (hlen : ∀ k st, (body k st).cells.length = st.cells.length)
    (hhit : ∀ k st j, j < N → idx j < st.cells.length →
      (body k st).cells[idx j]? = some (w k j))
    (hmiss : ∀ k st p, (∀ j, j < N → idx j ≠ p) → (body k st).cells[p]? = st.cells[p]?)
    (n : Nat) (c : CArr R) :
    (forLoop n body c).cells.length = c.cells.length ∧
    (∀ j, 0 < n → j < N → idx j < c.cells.length →
      (forLoop n body c).cells[idx j]? = some (w (n - 1) j)) ∧
    (∀ p, (∀ j, j < N → idx j ≠ p) → (forLoop n body c).cells[p]? = c.cells[p]?) := by
  induction n with
  | zero =>
    exact ⟨rfl, fun j h => absurd h (Nat.lt_irrefl 0), fun _ _ => rfl⟩
  | succ n ih =>
    obtain ⟨ihl, _, ihm⟩ := ih
    refine ⟨?_, ?_, ?_⟩
    · rw [forLoop_succ, hlen, ihl]
    · intro j _ hj hin
      rw [forLoop_succ]
      exact hhit n _ j hj (by rw [ihl]; exact hin)
    · intro p hp
      rw [forLoop_succ, hmiss n _ p hp]
      exact ihm p hp

/-- The indices `j*N + N` are pairwise distinct when `N` is positive. -/
theorem stride_injective (N : Nat) (hN : 0 < N) (a b : Nat) (h : a * N + N = b * N + N) :
    a = b :=
  Nat.eq_of_mul_eq_mul_right hN (Nat.add_right_cancel h)

/-- The last row index: `(N-1)*N + N = N*N` for positive `N`. -/
theorem last_stride (N : Nat) (hN : 0 < N) : (N - 1) * N + N = N * N := by
  obtain ⟨m, rfl⟩ : ∃ m, N = m + 1 := ⟨N - 1, by omega⟩
  rw [Nat.add_sub_cancel, ← Nat.succ_mul]

/-- A position below `N*N` that is no `m*N` with `1 <= m <= N-1` is no `j*N + N`
with `j < N`. -/
theorem not_stride_of_not_row_start (N p : Nat) (hp : p < N * N)
    (hno : ¬ ∃ m, 1 ≤ m ∧ m ≤ N - 1 ∧ p = m * N) (j : Nat) (hj : j < N) :
    j * N + N ≠ p := by
  intro h
  by_cases hlast : j + 1 ≤ N - 1
  · exact hno ⟨j + 1, Nat.succ_pos j, hlast, by rw [Nat.succ_mul]; exact h.symm⟩
  · have hjN : j = N - 1 := by omega
    rw [hjN, last_stride N (by omega)] at h
    omega

/-- One checked-free store hits its own cell and no other. -/
theorem store_hit_miss (c : CArr R) (q : Nat) (v : R) :
    (c.store q v).cells.length = c.cells.length ∧
    (q < c.cells.length → (c.store q v).cells[q]? = some v) ∧
    (∀ p, p ≠ q → (c.store q v).cells[p]? = c.cells[p]?) := by
  refine ⟨List.length_set _ _ _, ?_, ?_⟩
  · intro h
    rw [store_cells, List.getElem?_set, if_pos rfl, if_pos h]
  · intro p hp
    rw [store_cells, List.getElem?_set, if_neg (fun h => hp h.symm)]

/-- The store log of `mm_jki` when `N*N` fits an `int`: iteration `(j, k)`
stores to `j*N + N`. -/
theorem mm_jki_stores [Zero R] [Add R] [Mul R] (N : Nat) (A B : List R) (C : CArr R)
    (hN : N * N ≤ 2147483647) :
    (mm_jki N A B C).stores =
      C.stores ++
        (List.range (N * N)).map (fun t : Nat => (((t / N) * N + N : Nat) : Int)) := by
  rw [mm_jki_unwrapped N A B C hN]
  exact forLoop_store_nest_log N (fun j _ => j * N + N) _ N C

/-- The store log of `mm_kji` when `N*N` fits an `int`: iteration `(k, j)`
stores to `j*N + N`. -/
theorem mm_kji_stores [Zero R] [Add R] [Mul R] (N : Nat) (A B : List R) (C : CArr R)
    (hN : N * N ≤ 2147483647) :
    (mm_kji N A B C).stores =
      C.stores ++
        (List.range (N * N)).map (fun t : Nat => (((t % N) * N + N : Nat) : Int)) := by
  rw [mm_kji_unwrapped N A B C hN]
  exact forLoop_store_nest_log N (fun _ j => j * N + N) _ N C

/-- The store log of any nest that stores at the `int` index of `j*N + N`. -/
theorem stride_log_le (N : Nat) (pick : Nat → Nat) (x : Int)
    (hx : x ∈ (List.range (N * N)).map (fun t => idx32 (pick t) N N)) :
    x ≤ 2147483647 := by
  obtain ⟨t, _, rfl⟩ := List.mem_map.mp hx
  exact idx32_le _ _ _

/-- C18, amended. For every `N` with `N*N <= 2147483647` (every index fits an
`int`) and every `C` of length `N*N`, after `mm_jki` each cell
`C[m*N]` with `1 <= m <= N-1` holds the sum over `i < N` of
`A[(m-1)*N+i] * B[i*N+(N-1)]` (accumulated from `0` in increasing `i`), every
other cell of `[0, N*N)` keeps its prior value, iteration `(j, k)` stores to
`j*N + N`, and the stores of the outer iteration `j = N-1` go to `N*N`. -/
theorem mm_jki_in_range_effect [Zero R] [Add R] [Mul R] (N : Nat) (A B : List R)
    (C : CArr R) (hmax : N * N ≤ 2147483647) (hC : C.cells.length = N * N) :
    (∀ m, 1 ≤ m → m ≤ N - 1 → (mm_jki N A B C).cells[m * N]? =
      some (seqSum N (fun i => rd A ((m - 1) * N + i) * rd B (i * N + (N - 1))))) ∧
    (∀ p, p < N * N → (¬ ∃ m, 1 ≤ m ∧ m ≤ N - 1 ∧ p = m * N) →
      (mm_jki N A B C).cells[p]? = C.cells[p]?) ∧
    (mm_jki N A B C).cells.length = N * N ∧
    (mm_jki N A B C).stores =
      C.stores ++
        (List.range (N * N)).map (fun t : Nat => (((t / N) * N + N : Nat) : Int)) ∧
    (∀ t, t < N * N → t / N = N - 1 → (t / N) * N + N = N * N) := by
  rcases Nat.eq_zero_or_pos N with h0 | hN
  · subst h0
    exact ⟨fun m h1 h2 => by omega, fun p hp => by omega, hC, mm_jki_stores 0 A B C hmax,
      fun t ht => by omega⟩
  · have hk : mm_jki N A B C = forLoop N (fun j st =>
        forLoop N (fun k st => CArr.store st (j * N + N)
          (seqSum N (fun i => rd A (j * N + i) * rd B (i * N + k)))) st) C :=
      mm_jki_unwrapped N A B C hmax
    have key := forLoop_single_writes (fun j => j * N + N)
      (fun j => seqSum N (fun i => rd A (j * N + i) * rd B (i * N + (N - 1))))
      (fun j st => forLoop N (fun k st => CArr.store st (j * N + N)
          (seqSum N (fun i => rd A (j * N + i) * rd B (i * N + k)))) st)
      (fun j st => forLoop_store_length (fun _ => j * N + N) _ N st)
      (fun j st h => by
        show (forLoop N _ st).cells[j * N + N]? = _
        rw [forLoop_store_same, if_pos ⟨hN, rfl, h⟩])
      (fun j st p hp => by
        show (forLoop N _ st).cells[p]? = _
        rw [forLoop_store_same, if_neg (fun h => hp h.2.1)])
      (stride_injective N hN) N C
    rw [← hk] at key
    obtain ⟨klen, khit, kmiss⟩ := key
    refine ⟨?_, ?_, klen.trans hC, mm_jki_stores N A B C hmax, ?_⟩
    · intro m h1 h2
      obtain ⟨j, rfl⟩ : ∃ j, m = j + 1 := ⟨m - 1, by omega⟩
      have hlt : (j + 1) * N + 0 < N * N := rowMajor_lt N (j + 1) 0 (by omega) hN
      have h := khit j (by omega) (by rw [hC, ← Nat.succ_mul]; exact hlt)
      rw [Nat.succ_mul, Nat.add_sub_cancel]
      exact h
    · intro p hp hno
      exact kmiss p (fun j hj => not_stride_of_not_row_start N p hp hno j hj)
    · intro t _ ht
      rw [ht, last_stride N hN]

/-- Instance of C18 at `N = 2` over the integers. -/
theorem mm_jki_in_range_effect_witness :
    2 * 2 ≤ 2147483647 ∧
    (CArr.init [7, 7, 7, 7] : CArr ℤ).cells.length = 2 * 2 ∧
    (mm_jki 2 [1, 2, 3, 4] [5, 6, 7, 8] (CArr.init [7, 7, 7, 7]) : CArr ℤ).cells[1 * 2]? =
      some (seqSum 2 (fun i =>
        rd [1, 2, 3, 4] ((1 - 1) * 2 + i) * rd [5, 6, 7, 8] (i * 2 + (2 - 1)))) :=
  ⟨by decide, rfl,
    (mm_jki_in_range_effect 2 [1, 2, 3, 4] [5, 6, 7, 8] (CArr.init [7, 7, 7, 7])
      (by decide) rfl).1 1 (by decide) (by decide)⟩

/-- C18 as stated fails at `N = 46341`: the stores of the outer iteration
`j = N-1` of `mm_jki` have the `int` index `j*N + N`, which is `N*N = 2147488281`
reduced to `-2147479015`; no store has the index `N*N`. -/
theorem mm_jki_overflow_counterexample :
    (CArr.init (List.replicate (46341 * 46341) 1) : CArr ℤ).cells.length = 46341 * 46341 ∧
    idx32 (46341 - 1) 46341 46341 = -2147479015 ∧
    (-2147479015 : Int) ∈ (mm_jki 46341 (List.replicate (46341 * 46341) 0)
        (List.replicate (46341 * 46341) 0)
        (CArr.init (List.replicate (46341 * 46341) 1)) : CArr ℤ).stores ∧
    (∀ x ∈ (mm_jki 46341 (List.replicate (46341 * 46341) 0)
        (List.replicate (46341 * 46341) 0)
        (CArr.init (List.replicate (46341 * 46341) 1)) : CArr ℤ).stores,
      x ≠ ((46341 * 46341 : Nat) : Int)) := by
  have hidx : idx32 (46341 - 1) 46341 46341 = -2147479015 := by decide
  have hlog : (mm_jki 46341 (List.replicate (46341 * 46341) 0)
        (List.replicate (46341 * 46341) 0)
        (CArr.init (List.replicate (46341 * 46341) 1)) : CArr ℤ).stores
      = [] ++ (List.range (46341 * 46341)).map (fun t => idx32 (t / 46341) 46341 46341) := by
    unfold mm_jki
    exact forLoop_storeAt_nest_log 46341 (fun j _ => idx32 j 46341 46341) _ 46341 _
  refine ⟨List.length_replicate _ _, hidx, ?_, ?_⟩
  · rw [hlog]
    apply List.mem_append_right
    exact List.mem_map.mpr ⟨46340 * 46341, List.mem_range.mpr (by decide), by decide⟩
  · intro x hx
    rw [hlog, List.nil_append] at hx
    have := stride_log_le 46341 (fun t => t / 46341) x hx
    omega

/-- C19, amended. For every `N` with `N*N <= 2147483647` (every index fits an
`int`) and every `C` of length `N*N`, after `mm_kji` each cell
`C[m*N]` with `1 <= m <= N-1` holds the sum over `i < N` of
`A[(N-1)*N+i] * B[i*N+(m-1)]` (accumulated from `0` in increasing `i`), the
value stored in the last outer iteration; every other cell of `[0, N*N)` keeps
its prior value, iteration `(k, j)` stores to `j*N + N`, and the stores with
middle index `j = N-1` go to `N*N`. -/
theorem mm_kji_in_range_effect [Zero R] [Add R] [Mul R] (N : Nat) (A B : List R)
    (C : CArr R) (hmax : N * N ≤ 2147483647) (hC : C.cells.length = N * N) :
    (∀ m, 1 ≤ m → m ≤ N - 1 → (mm_kji N A B C).cells[m * N]? =
      some (seqSum N (fun i => rd A ((N - 1) * N + i) * rd B (i * N + (m - 1))))) ∧
    (∀ p, p < N * N → (¬ ∃ m, 1 ≤ m ∧ m ≤ N - 1 ∧ p = m * N) →
      (mm_kji N A B C).cells[p]? = C.cells[p]?) ∧
    (mm_kji N A B C).cells.length = N * N ∧
    (mm_kji N A B C).stores =
      C.stores ++
        (List.range (N * N)).map (fun t : Nat => (((t % N) * N + N : Nat) : Int)) ∧
    (∀ t, t < N * N → t % N = N - 1 → (t % N) * N + N = N * N) := by
  rcases Nat.eq_zero_or_pos N with h0 | hN
  · subst h0
    exact ⟨fun m h1 h2 => by omega, fun p hp => by omega, hC, mm_kji_stores 0 A B C hmax,
      fun t ht => by omega⟩
  · have hk : mm_kji N A B C = forLoop N (fun k st =>
        forLoop N (fun j st => CArr.store st (j * N + N)
          (seqSum N (fun i => rd A (k * N + i) * rd B (i * N + j)))) st) C :=
      mm_kji_unwrapped N A B C hmax
    have inner := fun (k : Nat) (st : CArr R) => forLoop_single_writes (fun j => j * N + N)
      (fun j => seqSum N (fun i => rd A (k * N + i) * rd B (i * N + j)))
      (fun j st => CArr.store st (j * N + N)
          (seqSum N (fun i => rd A (k * N + i) * rd B (i * N + j))))
      (fun j st => (store_hit_miss st _ _).1)
      (fun j st h => (store_hit_miss st _ _).2.1 h)
      (fun j st p hp => (store_hit_miss st _ _).2.2 p hp)
      (stride_injective N hN) N st
    have key := forLoop_overwrites N (fun j => j * N + N)
      (fun k j => seqSum N (fun i => rd A (k * N + i) * rd B (i * N + j)))
      (fun k st => forLoop N (fun j st => CArr.store st (j * N + N)
          (seqSum N (fun i => rd A (k * N + i) * rd B (i * N + j)))) st)
      (fun k st => (inner k st).1)
      (fun k st j hj h => (inner k st).2.1 j hj h)
      (fun k st p hp => (inner k st).2.2 p hp) N C
    rw [← hk] at key
    obtain ⟨klen, khit, kmiss⟩ := key
    refine ⟨?_, ?_, klen.trans hC, mm_kji_stores N A B C hmax, ?_⟩
    · intro m h1 h2
      obtain ⟨j, rfl⟩ : ∃ j, m = j + 1 := ⟨m - 1, by omega⟩
      have hlt : (j + 1) * N + 0 < N * N := rowMajor_lt N (j + 1) 0 (by omega) hN
      have h := khit j hN (by omega) (by rw [hC, ← Nat.succ_mul]; exact hlt)
      rw [Nat.succ_mul, Nat.add_sub_cancel]
      exact h
    · intro p hp hno
      exact kmiss p (fun j hj => not_stride_of_not_row_start N p hp hno j hj)
    · intro t _ ht
      rw [ht, last_stride N hN]

/-- Instance of C19 at `N = 2` over the integers. -/
theorem mm_kji_in_range_effect_witness :
    2 * 2 ≤ 2147483647 ∧
    (CArr.init [7, 7, 7, 7] : CArr ℤ).cells.length = 2 * 2 ∧
    (mm_kji 2 [1, 2, 3, 4] [5, 6, 7, 8] (CArr.init [7, 7, 7, 7]) : CArr ℤ).cells[1 * 2]? =
      some (seqSum 2 (fun i =>
        rd [1, 2, 3, 4] ((2 - 1) * 2 + i) * rd [5, 6, 7, 8] (i * 2 + (1 - 1)))) :=
  ⟨by decide, rfl,
    (mm_kji_in_range_effect 2 [1, 2, 3, 4] [5, 6, 7, 8] (CArr.init [7, 7, 7, 7])
      (by decide) rfl).1 1 (by decide) (by decide)⟩

/-- C19 as stated fails at `N = 46341`: the stores of `mm_kji` with middle
index `j = N-1` have the `int` index `j*N + N`, which is `N*N = 2147488281`
reduced to `-2147479015`; no store has the index `N*N`. -/
theorem mm_kji_overflow_counterexample :
    (CArr.init (List.replicate (46341 * 46341) 1) : CArr ℤ).cells.length = 46341 * 46341 ∧
    idx32 (46341 - 1) 46341 46341 = -2147479015 ∧
    (-2147479015 : Int) ∈ (mm_kji 46341 (List.replicate (46341 * 46341) 0)
        (List.replicate (46341 * 46341) 0)
        (CArr.init (List.replicate (46341 * 46341) 1)) : CArr ℤ).stores ∧
    (∀ x ∈ (mm_kji 46341 (List.replicate (46341 * 46341) 0)
        (List.replicate (46341 * 46341) 0)
        (CArr.init (List.replicate (46341 * 46341) 1)) : CArr ℤ).stores,
      x ≠ ((46341 * 46341 : Nat) : Int)) := by
  have hidx : idx32 (46341 - 1) 46341 46341 = -2147479015 := by decide
  have hlog : (mm_kji 46341 (List.replicate (46341 * 46341) 0)
        (List.replicate (46341 * 46341) 0)
        (CArr.init (List.replicate (46341 * 46341) 1)) : CArr ℤ).stores
      = [] ++ (List.range (46341 * 46341)).map (fun t => idx32 (t % 46341) 46341 46341) := by
    unfold mm_kji
    exact forLoop_storeAt_nest_log 46341 (fun _ j => idx32 j 46341 46341) _ 46341 _
  refine ⟨List.length_replicate _ _, hidx, ?_, ?_⟩
  · rw [hlog]
    apply List.mem_append_right
    exact List.mem_map.mpr ⟨46340, List.mem_range.mpr (by decide), by decide⟩
  · intro x hx
    rw [hlog, List.nil_append] at hx
    have := stride_log_le 46341 (fun t => t % 46341) x hx
    omega

end Misplaced

end MM

/-! ## Bounds of the accesses of `mm_ijk` and `mm_jik` -/

namespace MM

section Bounds

variable {R : Type}

/-- A checked loop whose every iteration succeeds, with the result of the
unchecked body, succeeds with the result of the unchecked loop; `P` is an
invariant the iterations may rely on. -/
theorem forLoopM_eq_some {σ : Type} (P : σ → Prop) (n : Nat)
    (bodyM : Nat → σ → Option σ) (body : Nat → σ → σ)
    (h : ∀ m t, m < n → P t → bodyM m t = some (body m t) ∧ P (body m t))
    (s : σ) (hs : P s) :
    forLoopM n bodyM s = some (forLoop n body s) ∧ P (forLoop n body s) := by
  induction n with
  | zero => exact ⟨rfl, hs⟩
  | succ n ih =>
    obtain ⟨he, hp⟩ := ih (fun m t hm ht => h m t (Nat.lt_succ_of_lt hm) ht)
    have hstep := h n (forLoop n body s) (Nat.lt_succ_self n) hp
    refine ⟨?_, hstep.2⟩
    show (forLoopM n bodyM s).bind (bodyM n) = some (body n (forLoop n body s))
    rw [he, Option.some_bind, hstep.1]

/-- A checked loop one of whose iterations fails on every state fails. -/
theorem forLoopM_none_of_step {σ : Type} (n m : Nat) (body : Nat → σ → Option σ)
    (hm : m < n) (h : ∀ t, body m t = none) (s : σ) : forLoopM n body s = none := by
  induction n with
  | zero => exact absurd hm (Nat.not_lt_zero m)
  | succ n ih =>
    show (forLoopM n body s).bind (body n) = none
    by_cases hmn : m = n
    · subst hmn
      cases forLoopM m body s with
      | none => rfl
      | some t => exact h t
    · rw [ih (by omega)]
      rfl

/-- A read inside the array is the checked read. -/
theorem getElem?_eq_rd [Zero R] (A : List R) (idx : Nat) (h : idx < A.length) :
    A[idx]? = some (rd A idx) := by
  rw [rd, List.getD_eq_getElem _ _ h, List.getElem?_eq_getElem h]

/-- A checked read at an `int` index that fits an `int` and lies inside the
array is the unchecked read. -/
theorem rdChecked_idx32 [Zero R] (A : List R) (a N b : Nat) (hfit : a * N + b ≤ 2147483647)
    (hin : a * N + b < A.length) :
    rdChecked A (idx32 a N b) = some (rdAt A (idx32 a N b)) := by
  rw [idx32_eq a N b hfit, rdAt_natCast]
  unfold rdChecked
  rw [if_pos (Int.ofNat_nonneg _), Int.toNat_ofNat]
  exact getElem?_eq_rd A _ hin

/-- A checked read at a negative index fails. -/
theorem rdChecked_neg (A : List R) (idx : Int) (h : idx < 0) : rdChecked A idx = none := by
  unfold rdChecked
  rw [if_neg (by omega)]

/-- The checked accumulation loop of a cell `(a, b)` inside the matrices
succeeds with the unchecked sum. -/
theorem checked_sum_eq_some [Zero R] [Add R] [Mul R] (N : Nat) (A B : List R)
    (hmax : N * N ≤ 2147483647)
    (hA : A.length = N * N) (hB : B.length = N * N) (a b : Nat) (ha : a < N) (hb : b < N) :
    forLoopM N (fun k sum =>
        (rdChecked A (idx32 a N k)).bind (fun x =>
          (rdChecked B (idx32 k N b)).bind (fun y => some (sum + x * y))))
      (0 : R)
      = some (forLoop N (fun k sum =>
          sum + rdAt A (idx32 a N k) * rdAt B (idx32 k N b)) 0) := by
  refine (forLoopM_eq_some (fun _ => True) N _ _ ?_ 0 trivial).1
  intro k t hk _
  have h1 : a * N + k < N * N := rowMajor_lt N a k ha hk
  have h2 : k * N + b < N * N := rowMajor_lt N k b hk hb
  refine ⟨?_, trivial⟩
  show (rdChecked A (idx32 a N k)).bind _ = _
  rw [rdChecked_idx32 A a N k (by omega) (by omega), Option.some_bind,
    rdChecked_idx32 B k N b (by omega) (by omega), Option.some_bind]

/-- A checked nest of stores `C[a*N+b] = val a b` whose sums are computed by
checked loops succeeds with the result of the unchecked nest. -/
theorem checked_grid_eq_some (N : Nat) (sumM : Nat → Nat → Option R) (val : Nat → Nat → R)
    (hmax : N * N ≤ 2147483647)
    (hsum : ∀ a b, a < N → b < N → sumM a b = some (val a b))
    (C : CArr R) (hC : C.cells.length = N * N) :
    forLoopM N (fun a st =>
        forLoopM N (fun b st =>
          (sumM a b).bind (fun sum => CArr.storeChecked st (idx32 a N b) sum)) st) C
      = some (forLoop N (fun a st =>
          forLoop N (fun b st => CArr.storeAt st (idx32 a N b) (val a b)) st) C) := by
  refine (forLoopM_eq_some (fun st : CArr R => st.cells.length = N * N) N _ _ ?_ C hC).1
  intro a st ha hst
  refine forLoopM_eq_some (fun st : CArr R => st.cells.length = N * N) N _ _ ?_ st hst
  intro b u hb hu
  have hlt : a * N + b < N * N := rowMajor_lt N a b ha hb
  have hidx : idx32 a N b = ((a * N + b : Nat) : Int) := idx32_eq a N b (by omega)
  refine ⟨?_, ?_⟩
  · show (sumM a b).bind _ = _
    rw [hsum a b ha hb, Option.some_bind, CArr.storeChecked, if_pos]
    rw [hidx, Int.toNat_ofNat, hu]
    exact ⟨Int.ofNat_nonneg _, hlt⟩
  · show (u.storeAt (idx32 a N b) (val a b)).cells.length = N * N
    rw [storeAt_length, hu]

/-- C20, amended. For every `N` with `N*N <= 2147483647` (every index fits an
`int`) and arrays `A`, `B`, `C` of length `N*N`, the kernels `mm_ijk` and
`mm_jik` with Option-valued indexing never take the out-of-range branch: they
succeed, with the result of the unchecked kernels, and their stores go to the
indices `0, ..., N*N - 1`.  `A` and `B` are read only. -/
theorem mm_ijk_jik_in_bounds [Zero R] [Add R] [Mul R] (N : Nat) (A B : List R) (C : CArr R)
    (hmax : N * N ≤ 2147483647)
    (hA : A.length = N * N) (hB : B.length = N * N) (hC : C.cells.length = N * N) :
    mm_ijk_checked N A B C = some (mm_ijk N A B C) ∧
    mm_jik_checked N A B C = some (mm_jik N A B C) ∧
    (∃ log, (mm_ijk N A B C).stores = C.stores ++ log ∧
      ∀ x ∈ log, 0 ≤ x ∧ x < ((N * N : Nat) : Int)) ∧
    (∃ log, (mm_jik N A B C).stores = C.stores ++ log ∧
      ∀ x ∈ log, 0 ≤ x ∧ x < ((N * N : Nat) : Int)) := by
  have hrange : ∀ x ∈ (List.range (N * N)).map (fun t : Nat => (t : Int)),
      0 ≤ x ∧ x < ((N * N : Nat) : Int) := by
    intro x hx
    obtain ⟨t, ht, rfl⟩ := List.mem_map.mp hx
    have ht : t < N * N := List.mem_range.mp ht
    exact ⟨Int.ofNat_nonneg t, by exact_mod_cast ht⟩
  refine ⟨?_, ?_, ⟨_, mm_ijk_stores N A B C hmax, hrange⟩,
    ⟨_, mm_jik_stores N A B C hmax, hrange⟩⟩
  · unfold mm_ijk_checked mm_ijk
    exact checked_grid_eq_some N _ _ hmax
      (fun a b ha hb => checked_sum_eq_some N A B hmax hA hB a b ha hb) C hC
  · unfold mm_jik_checked mm_jik
    exact checked_grid_eq_some N _ _ hmax
      (fun a b ha hb => checked_sum_eq_some N A B hmax hA hB a b ha hb) C hC

/-- Instance of C20 at `N = 2` over the integers. -/
theorem mm_ijk_jik_in_bounds_witness :
    2 * 2 ≤ 2147483647 ∧
    ([1, 2, 3, 4] : List ℤ).length = 2 * 2 ∧ ([5, 6, 7, 8] : List ℤ).length = 2 * 2 ∧
    (CArr.init [7, 7, 7, 7] : CArr ℤ).cells.length = 2 * 2 ∧
    mm_ijk_checked 2 [1, 2, 3, 4] [5, 6, 7, 8] (CArr.init [7, 7, 7, 7])
      = some (mm_ijk 2 [1, 2, 3, 4] [5, 6, 7, 8] (CArr.init [7, 7, 7, 7]) : CArr ℤ) ∧
    mm_jik_checked 2 [1, 2, 3, 4] [5, 6, 7, 8] (CArr.init [7, 7, 7, 7])
      = some (mm_jik 2 [1, 2, 3, 4] [5, 6, 7, 8] (CArr.init [7, 7, 7, 7]) : CArr ℤ) :=
  ⟨by decide, rfl, rfl, rfl,
    (mm_ijk_jik_in_bounds 2 [1, 2, 3, 4] [5, 6, 7, 8] (CArr.init [7, 7, 7, 7])
      (by decide) rfl rfl rfl).1,
    (mm_ijk_jik_in_bounds 2 [1, 2, 3, 4] [5, 6, 7, 8] (CArr.init [7, 7, 7, 7])
      (by decide) rfl rfl rfl).2.1⟩

/-- C20 as stated fails at `N = 46341` with `A`, `B`, `C` of length `N*N`: in
iteration `i = 0`, `j = 41708`, `k = 46340` the `int` index `k*N+j` of the read
of `B` is `2^31` reduced to `-2^31`, outside `[0, N*N)`, so `mm_ijk` with
Option-valued indexing takes the out-of-range branch. -/
theorem mm_ijk_checked_overflow_counterexample :
    (List.replicate (46341 * 46341) (0 : ℤ)).length = 46341 * 46341 ∧
    (CArr.init (List.replicate (46341 * 46341) 1) : CArr ℤ).cells.length = 46341 * 46341 ∧
    idx32 46340 46341 41708 = -2147483648 ∧
    mm_ijk_checked 46341 (List.replicate (46341 * 46341) 0) (List.replicate (46341 * 46341) 0)
      (CArr.init (List.replicate (46341 * 46341) (1 : ℤ))) = none := by
  have hidx : idx32 46340 46341 41708 = -2147483648 := by decide
  refine ⟨List.length_replicate _ _, List.length_replicate _ _, hidx, ?_⟩
  unfold mm_ijk_checked
  apply forLoopM_none_of_step 46341 0 _ (by decide)
  intro st
  apply forLoopM_none_of_step 46341 41708 _ (by decide)
  intro u
  have hsum : forLoopM 46341 (fun k sum =>
      (rdChecked (List.replicate (46341 * 46341) (0 : ℤ)) (idx32 0 46341 k)).bind (fun a =>
        (rdChecked (List.replicate (46341 * 46341) (0 : ℤ)) (idx32 k 46341 41708)).bind
          (fun b => some (sum + a * b)))) (0 : ℤ) = none := by
    apply forLoopM_none_of_step 46341 46340 _ (by decide)
    intro sum
    show (rdChecked _ (idx32 0 46341 46340)).bind _ = none
    rw [hidx, rdChecked_neg (List.replicate (46341 * 46341) (0 : ℤ)) (-2147483648) (by decide)]
    cases rdChecked (List.replicate (46341 * 46341) (0 : ℤ)) (idx32 0 46341 46340) <;> rfl
  show (forLoopM 46341 _ (0 : ℤ)).bind _ = none
  rw [hsum]
  rfl

end Bounds

end MM
